import Mathlib

/-!
# Loadable: a verification development of `src/index.js`

The file embeds the loading orchestrator of `src/index.js` in Lean:

* JavaScript values, truthiness and records (the part the code branches on);
* the readiness probe `isWebpackReady`;
* the instance state, `setState`, `render`, `retry`, `componentWillUnmount`;
* promises, described by their settlement (when, and with what);
* `load`, `loadMap`, `init`, `flushInitializers`, `preloadAll`, `preloadReady`.

Definitions keep the names of the source functions they embed.
-/

namespace Loadable

/-! ## JavaScript values -/

/-- The JavaScript values the code branches on.  Objects are opaque
references: `ref` is an object that is not callable (`typeof` gives
`'object'`), `fn` is a function (`typeof` gives `'function'`); both are
truthy.  The number `NaN` is not represented. -/
inductive JSVal where
  | undefined
  | null
  | bool (b : Bool)
  | num (n : Int)
  | str (s : String)
  | ref (id : Nat)
  | fn (id : Nat)
  deriving DecidableEq, Repr

/-- JavaScript truthiness (`ToBoolean`): what `if (v)` and `v || w` test. -/
def JSVal.truthy : JSVal → Bool
  | .undefined => false
  | .null => false
  | .bool b => b
  | .num n => n != 0
  | .str s => s != ""
  | .ref _ => true
  | .fn _ => true

/-- The test `typeof v === 'function'`: true of functions only, false of
plain objects and of primitives. -/
def JSVal.isFunction : JSVal → Bool
  | .fn _ => true
  | _ => false

/-- A plain object with string keys, in insertion order. -/
abbrev Record := List (String × JSVal)

/-- Property read `r[k]`: the value stored under `k`, if the key is there. -/
def Record.get (r : Record) (k : String) : Option JSVal :=
  (r.find? (fun kv => kv.1 == k)).map (fun kv => kv.2)

/-- Property write `r[k] = v`: replaces in place, or appends a new key. -/
def Record.set : Record → String → JSVal → Record
  | [], k, v => [(k, v)]
  | (k', v') :: r, k, v =>
    if k' == k then (k, v) :: r else (k', v') :: Record.set r k v

/-- What `state.loaded` can hold: a plain value, or a reference to the object
`res.loaded` of a load state (numbered in order of creation).  The instance
state shares that object with the load state, it does not copy it. -/
inductive Payload where
  | val (v : JSVal)
  | object (ref : Nat)
  deriving DecidableEq, Repr

/-- Truthiness of a payload; an object is always truthy. -/
def Payload.truthy : Payload → Bool
  | .val v => v.truthy
  | .object _ => true

/-- Equality of completions (`return v` or `throw e`) is decidable. -/
instance instDecidableEqExcept {ε α : Type} [DecidableEq ε] [DecidableEq α] :
    DecidableEq (Except ε α)
  | .ok a, .ok b => if h : a = b then isTrue (by rw [h]) else isFalse (by intro h2; cases h2; exact h rfl)
  | .error a, .error b => if h : a = b then isTrue (by rw [h]) else isFalse (by intro h2; cases h2; exact h rfl)
  | .ok _, .error _ => isFalse (by intro h; cases h)
  | .error _, .ok _ => isFalse (by intro h; cases h)

/-! ## The readiness probe -/

/-- The error thrown by the runtime on a property read of `null` or
`undefined`, and on destructuring them. -/
def typeError : JSVal := .str "TypeError"

/-- A module identifier as `getModuleIds()` lists it: `none` is `undefined`,
`some k` is a defined identifier, named by its property key. -/
abbrev ModuleId := Option String

/-- An object that serves as the table `__webpack_modules__`: its own
properties, and the properties it inherits along its prototype chain. -/
structure ModuleTable where
  own : Record
  inherited : Record
  deriving DecidableEq, Repr

/-- Property read `table[k]`: an own property first, an inherited one
otherwise; `none` when the read finds no property (and yields `undefined`). -/
def ModuleTable.read (table : ModuleTable) (k : String) : Option JSVal :=
  match Record.get table.own k with
  | some v => some v
  | none => Record.get table.inherited k

/-- The members every object literal inherits from `Object.prototype`. -/
def objectPrototype : Record :=
  [("constructor", .fn 100), ("__defineGetter__", .fn 101), ("__defineSetter__", .fn 102),
   ("hasOwnProperty", .fn 103), ("__lookupGetter__", .fn 104), ("__lookupSetter__", .fn 105),
   ("isPrototypeOf", .fn 106), ("propertyIsEnumerable", .fn 107), ("toString", .fn 108),
   ("valueOf", .fn 109), ("__proto__", .ref 110), ("toLocaleString", .fn 111)]

/-- An object literal with the given own properties. -/
def ModuleTable.literal (own : Record) : ModuleTable :=
  { own := own, inherited := objectPrototype }

/-- The global `__webpack_modules__` as the guard of `isWebpackReady` sees it:
`notObject` when `typeof __webpack_modules__` is not `'object'` (the global is
not declared, or holds a primitive or a function); otherwise `object none`
for `null`, whose `typeof` is `'object'` too, and `object (some table)` for an
object. -/
inductive WebpackModules where
  | notObject
  | object (table : Option ModuleTable)
  deriving DecidableEq, Repr

/-- The result of one run of the probe, with the number of times the closure
`getModuleIds` was called. -/
structure ProbeRun where
  result : Except JSVal Bool
  getModuleIdsCalls : Nat
  deriving DecidableEq, Repr

/-- The callback given to `every`: `typeof moduleId !== 'undefined' &&
typeof __webpack_modules__[moduleId] !== 'undefined'`, for a global whose
`typeof` is `'object'`.  The table is read only for a defined identifier, and
the read throws when the global is `null`. -/
def moduleIdReady (table : Option ModuleTable) : ModuleId → Except JSVal Bool
  | none => .ok false
  | some k =>
    match table with
    | none => .error typeError
    | some t =>
      match t.read k with
      | none => .ok false
      | some v => .ok (v != JSVal.undefined)

/-- The method `ids.every(callback)`: it stops at the first identifier for
which the callback returns false, and a throw of the callback propagates. -/
def everyModuleId (table : Option ModuleTable) : List ModuleId → Except JSVal Bool
  | [] => .ok true
  | id :: rest =>
    match moduleIdReady table id with
    | .error e => .error e
    | .ok false => .ok false
    | .ok true => everyModuleId table rest

/-- Embedding of `isWebpackReady(getModuleIds)` (index.js 14-25).  The closure
`getModuleIds` returns a list or throws. -/
def isWebpackReady (webpackModules : WebpackModules)
    (getModuleIds : Unit → Except JSVal (List ModuleId)) : ProbeRun :=
  match webpackModules with
  | .notObject => { result := .ok false, getModuleIdsCalls := 0 }
  | .object table =>
    match getModuleIds () with
    | .error e => { result := .error e, getModuleIdsCalls := 1 }
    | .ok ids => { result := everyModuleId table ids, getModuleIdsCalls := 1 }

/-! ## Instance state, `setState` and `render` -/

/-- The state of a mounted `LoadableComponent` (`this.state`). -/
structure InstState where
  error : JSVal
  pastDelay : Bool
  timedOut : Bool
  loading : Bool
  loaded : Payload
  deriving DecidableEq, Repr

/-- The argument of `setState`: the keys that are present get overwritten. -/
structure StatePatch where
  error : Option JSVal := none
  pastDelay : Option Bool := none
  timedOut : Option Bool := none
  loading : Option Bool := none
  loaded : Option Payload := none
  deriving DecidableEq, Repr

/-- The shallow merge done by `this.setState(patch)`. -/
def setState (s : InstState) (p : StatePatch) : InstState :=
  { error := p.error.getD s.error
    pastDelay := p.pastDelay.getD s.pastDelay
    timedOut := p.timedOut.getD s.timedOut
    loading := p.loading.getD s.loading
    loaded := p.loaded.getD s.loaded }

/-- The patch of `retry`: `{ error: null, loading: true, timedOut: false }`
(index.js 309). -/
def retryPatch : StatePatch :=
  { error := some JSVal.null, loading := some true, timedOut := some false }

/-- The props object handed to the loading view (index.js 316-322); `retry`
is the bound method of the rendering instance. -/
structure LoadingProps where
  isLoading : Bool
  pastDelay : Bool
  timedOut : Bool
  error : JSVal
  retry : Nat
  deriving DecidableEq, Repr

/-- The props of an instance, a plain object. -/
abbrev Props := List (String × JSVal)

/-- The rest pattern `const { store, ...props } = this.props`. -/
def withoutStore (props : Props) : Props :=
  props.filter (fun kv => kv.1 != "store")

/-- What `render()` returns: the element `React.createElement(opts.loading, p)`,
the value of `opts.render(loaded, props)`, or `null`. -/
inductive Rendered (R : Type) where
  | loadingElement (p : LoadingProps)
  | fromRender (r : R)
  | null
  deriving DecidableEq, Repr

/-- Embedding of `LoadableComponent.render` (index.js 314-329).  `optsRender`
is the configured `opts.render`, `self` names the instance whose `retry` is
passed on. -/
def render {R : Type} (optsRender : Payload → Props → R) (self : Nat)
    (state : InstState) (props : Props) : Rendered R :=
  if state.loading || state.error.truthy then
    .loadingElement
      { isLoading := state.loading
        pastDelay := state.pastDelay
        timedOut := state.timedOut
        error := state.error
        retry := self }
  else if state.loaded.truthy then
    .fromRender (optsRender state.loaded (withoutStore props))
  else
    .null

/-! ## Promises

A promise is described by its settlement: whether it settles, at which
instant of the event loop, and with what.  Instants are natural numbers; two
promises that settle at the same instant run their reactions in array order. -/

/-- The settlement of a promise. -/
inductive Settle (α : Type) where
  | pending
  | fulfilled (t : Nat) (v : α)
  | rejected (t : Nat) (e : JSVal)
  deriving DecidableEq, Repr

/-- The instant at which a promise settles, if it does. -/
def Settle.time {α : Type} : Settle α → Option Nat
  | .pending => none
  | .fulfilled t _ => some t
  | .rejected t _ => some t

/-- The test "this promise has settled by instant `now`". -/
def Settle.settledBy {α : Type} (p : Settle α) (now : Nat) : Bool :=
  match p.time with
  | none => false
  | some t => t ≤ now

/-- The method `p.then(onFulfilled, onRejected)`; a callback returns a value
or throws. -/
def Settle.then2 {α β : Type} (p : Settle α) (onFulfilled : α → Except JSVal β)
    (onRejected : JSVal → Except JSVal β) : Settle β :=
  match p with
  | .pending => .pending
  | .fulfilled t v =>
    match onFulfilled v with
    | .ok w => .fulfilled t w
    | .error e => .rejected t e
  | .rejected t e =>
    match onRejected e with
    | .ok w => .fulfilled t w
    | .error e2 => .rejected t e2

/-- The method `p.then(onFulfilled)`: a rejection passes through. -/
def Settle.then1 {α β : Type} (p : Settle α) (onFulfilled : α → Except JSVal β) : Settle β :=
  p.then2 onFulfilled (fun e => .error e)

/-- The method `p.catch(onRejected)`: a fulfilment passes through. -/
def Settle.catch1 {α : Type} (p : Settle α) (onRejected : JSVal → Except JSVal α) : Settle α :=
  p.then2 (fun v => .ok v) onRejected

/-- The earliest rejection among the promises, the first in array order among
those of the earliest instant. -/
def firstRejection {α : Type} : List (Settle α) → Option (Nat × JSVal)
  | [] => none
  | .rejected t e :: ps =>
    match firstRejection ps with
    | some (t2, e2) => if t2 < t then some (t2, e2) else some (t, e)
    | none => some (t, e)
  | _ :: ps => firstRejection ps

/-- The values of the promises when all of them fulfil, with the instant the
last one settles. -/
def allFulfilled {α : Type} : List (Settle α) → Option (Nat × List α)
  | [] => some (0, [])
  | .fulfilled t v :: ps =>
    match allFulfilled ps with
    | some (t2, vs) => some (max t t2, v :: vs)
    | none => none
  | _ :: _ => none

/-- The function `Promise.all(promises)`: rejects with the first rejection,
fulfils with all the values once every promise has fulfilled. -/
def promiseAll {α : Type} (ps : List (Settle α)) : Settle (List α) :=
  match firstRejection ps with
  | some (t, e) => .rejected t e
  | none =>
    match allFulfilled ps with
    | some (t, vs) => .fulfilled t vs
    | none => .pending

/-! ## `load` and `loadMap` -/

/-- A loader: a zero-argument function that throws or returns a promise.
`id` identifies the function in the invocation log.  For `load` and
`loadMap` the promise carries the instant at which it settles; the loaders of
a unit are given with the delay after which they settle, and `Loader.at`
places them on the timeline when they are called. -/
structure Loader where
  id : Nat
  call : Except JSVal (Settle JSVal)
  deriving DecidableEq, Repr

/-- The object `state` of `load` right after the call. -/
structure LoadState where
  loading : Bool
  loaded : JSVal
  error : JSVal
  promise : Settle JSVal
  deriving DecidableEq, Repr

/-- Embedding of `load(loader)` (index.js 27-49): the state returned by the
call.  A throw of `loader()` propagates. -/
def load (loader : Loader) : Except JSVal LoadState :=
  match loader.call with
  | .error e => .error e
  | .ok promise =>
    .ok { loading := true
          loaded := JSVal.null
          error := JSVal.null
          promise := (promise.then1 (fun loaded => .ok loaded)).catch1 (fun err => .error err) }

/-- The callbacks of `load` (index.js 37-46) once the promise has settled:
`loading = false` and `loaded = value`, or `loading = false` and `error = err`. -/
def LoadState.settled (s : LoadState) : LoadState :=
  match s.promise with
  | .pending => s
  | .fulfilled _ v => { s with loading := false, loaded := v }
  | .rejected _ e => { s with loading := false, error := e }

/-- The promise a loader returns, for a loader that does not throw. -/
def Loader.promise (l : Loader) : Settle JSVal :=
  match l.call with
  | .ok p => p
  | .error _ => .pending

/-- The argument of `loadMap`: an object literal of loaders, or a function
(a function value has no own enumerable property). -/
inductive LoaderArg where
  | object (entries : List (String × Loader))
  | function (f : Loader)
  deriving DecidableEq, Repr

/-- The pairs `(key, obj[key])` for `Object.keys(obj)`. -/
def LoaderArg.entries : LoaderArg → List (String × Loader)
  | .object es => es
  | .function _ => []

/-- The object `state` of `loadMap`, with the array `promises` (each promise
next to its key) and the identifiers of the loaders called so far. -/
structure AggState where
  loading : Bool
  loaded : Record
  error : JSVal
  promises : List (String × Settle JSVal)
  invoked : List Nat
  deriving DecidableEq, Repr

/-- The body of the `forEach` callback of `loadMap` (index.js 61-80), run over
the keys in order inside the `try`: a throw of `load` ends the loop and is
stored in `state.error` (index.js 81-83). -/
def loadMapLoop : List (String × Loader) → AggState → AggState
  | [], state => state
  | (key, loader) :: rest, state =>
    match load loader with
    | .error err => { state with error := err, invoked := state.invoked ++ [loader.id] }
    | .ok result =>
      let state1 : AggState :=
        if !result.loading then
          { state with loaded := Record.set state.loaded key result.loaded, error := result.error }
        else
          { state with loading := true }
      loadMapLoop rest
        { state1 with
          promises := state1.promises ++ [(key, result.promise)]
          invoked := state1.invoked ++ [loader.id] }

/-- Embedding of `loadMap(obj)` (index.js 51-96): the state at return. -/
def loadMap (obj : LoaderArg) : AggState :=
  loadMapLoop obj.entries
    { loading := false, loaded := [], error := JSVal.null, promises := [], invoked := [] }

/-- The promise `state.promise` of `loadMap` (index.js 85-93): the fan-in of
the entries, passed through a `then` and a re-throwing `catch`. -/
def AggState.promise (state : AggState) : Settle (List JSVal) :=
  ((promiseAll (state.promises.map (fun kp => kp.2))).then1 (fun res => .ok res)).catch1
    (fun err => .error err)

/-- The reaction of `loadMap` to the settlement of the entry `key`
(index.js 73-79): `state.loaded[key] = res`, or `state.error = err`. -/
def AggState.entrySettled (state : AggState) (entry : String × Settle JSVal) : AggState :=
  match entry.2 with
  | .pending => state
  | .fulfilled _ res => { state with loaded := Record.set state.loaded entry.1 res }
  | .rejected _ err => { state with error := err }

/-- The instant of an entry, for sorting the settled ones. -/
def entryTime (entry : String × Settle JSVal) : Nat :=
  entry.2.time.getD 0

/-- The entries that have settled by `now`, in the order they settled (entries
of one instant in array order). -/
def settledEntries (promises : List (String × Settle JSVal)) (now : Nat) :
    List (String × Settle JSVal) :=
  (promises.filter (fun kp => kp.2.settledBy now)).insertionSort
    (fun a b => entryTime a ≤ entryTime b)

/-- The object `state` of `loadMap` as an observer finds it at the end of the
instant `now`: the entry reactions have run in settlement order, and
`loading` has been cleared if the fan-in promise has settled (index.js 86-93). -/
def AggState.observe (state : AggState) (now : Nat) : AggState :=
  let state1 := (settledEntries state.promises now).foldl AggState.entrySettled state
  { state1 with loading := state1.loading && !(state.promise.settledBy now) }

/-! ## Objects, and the injection `initRedux` -/

/-- The expression `a || b`. -/
def JSVal.or (a b : JSVal) : JSVal :=
  if a.truthy then a else b

/-- Property read `v[k]`.  `heap` gives the properties of each object; a read
on `null` or `undefined` throws; a string has its indices and `length`. -/
def getProp (heap : Nat → Record) : JSVal → String → Except JSVal JSVal
  | .undefined, _ => .error typeError
  | .null, _ => .error typeError
  | .ref id, k => .ok ((Record.get (heap id) k).getD .undefined)
  | .fn id, k => .ok ((Record.get (heap id) k).getD .undefined)
  | .str s, k =>
    if k == "length" then .ok (.num s.length)
    else
      match k.toNat? with
      | some i =>
        if toString i == k && i < s.length then .ok (.str (String.singleton (s.toList.getD i ' ')))
        else .ok .undefined
      | none => .ok .undefined
  | _, _ => .ok .undefined

/-- The names `Object.keys(v)` of a truthy value. -/
def objectKeys (heap : Nat → Record) : JSVal → List String
  | .ref id => (heap id).map (fun kv => kv.1)
  | .fn id => (heap id).map (fun kv => kv.1)
  | .str s => (List.range s.length).map toString
  | _ => []

/-- The four fields `{ reducers, sagas, initialState, selectors }`. -/
structure ReduxBundle where
  reducers : JSVal
  sagas : JSVal
  initialState : JSVal
  selectors : JSVal
  deriving DecidableEq, Repr

/-- Destructuring `{ reducers, sagas, initialState, selectors } = v`. -/
def destructureRedux (heap : Nat → Record) (v : JSVal) : Except JSVal ReduxBundle := do
  let reducers ← getProp heap v "reducers"
  let sagas ← getProp heap v "sagas"
  let initialState ← getProp heap v "initialState"
  let selectors ← getProp heap v "selectors"
  pure { reducers := reducers, sagas := sagas, initialState := initialState, selectors := selectors }

/-- Embedding of `getRedux` (index.js 102-108); `none` is the result `null`. -/
def getRedux (heap : Nat → Record) (component : JSVal) : Except JSVal (Option ReduxBundle) := do
  let b ← destructureRedux heap component
  if b.reducers.truthy || b.sagas.truthy || b.initialState.truthy || b.selectors.truthy then
    pure (some b)
  else
    pure none

/-- A call made on the store or on the localize context. -/
inductive StoreCall where
  | injectAsyncReducer (reducerName reducers : JSVal)
  | injectSelectors (reducerName selectors initialState : JSVal)
  | setSagas (sagas : JSVal)
  | addTranslations (translations scope : JSVal)
  | addTranslationForLanguage (key value : JSVal) (language : String)
  deriving DecidableEq, Repr

/-- What `initRedux` reads besides its arguments: the properties of objects,
`options.reducerName`, `options.translationsScope`, the constant
`localizeVersion` and the variable `localizeContext`. -/
structure InjectEnv where
  heap : Nat → Record
  reducerName : JSVal
  translationsScope : JSVal
  localizeVersion : Nat
  localizeContext : JSVal

/-- The test `x && store.method` of `initRedux`: the store is read only when
`x` is truthy. -/
def andMethod (heap : Nat → Record) (x store : JSVal) (method : String) : Except JSVal Bool :=
  if x.truthy then do
    let m ← getProp heap store method
    pure m.truthy
  else
    pure false

/-- Embedding of `initRedux(store, loaded)` (index.js 148-197): the calls made
on the collaborators, or the error thrown before any call is made.  `loaded`
is the content of `res.loaded` at the time of the call. -/
def initRedux (env : InjectEnv) (store : JSVal) (loaded : Record) : Except JSVal (List StoreCall) := do
  let _translations := (Record.get loaded "translations").getD .undefined
  let _redux := (Record.get loaded "redux").getD .undefined
  let component := (Record.get loaded "component").getD .undefined
  let redux ← if _redux.truthy then (destructureRedux env.heap _redux).map some
    else getRedux env.heap component
  let translations ← if _translations.truthy then pure _translations
    else getProp env.heap component "translations"
  let calls1 ← match redux with
    | none => pure []
    | some b => do
      let c1 ← if env.reducerName.truthy then do
          let r ← andMethod env.heap b.reducers store "injectAsyncReducer"
          let s ← andMethod env.heap b.selectors store "injectSelectors"
          pure ((if r then [StoreCall.injectAsyncReducer env.reducerName b.reducers] else []) ++
            (if s then [StoreCall.injectSelectors env.reducerName b.selectors b.initialState] else []))
        else pure []
      let g ← andMethod env.heap b.sagas store "setSagas"
      pure (c1 ++ (if g then [StoreCall.setSagas b.sagas] else []))
  let calls2 ← if translations.truthy then
      if env.localizeVersion == 2 then do
        let m ← getProp env.heap store "addTranslations"
        pure (if m.truthy then
          [StoreCall.addTranslations translations (env.translationsScope.or env.reducerName)] else [])
      else if env.localizeContext.truthy then
        pure ((objectKeys env.heap translations).map (fun language =>
          StoreCall.addTranslationForLanguage (env.translationsScope.or env.reducerName)
            (((getProp env.heap translations language).toOption).getD .undefined) language))
      else pure []
    else pure []
  pure (calls1 ++ calls2)

/-! ## A declared unit: the closure of `createLoadableComponent` -/

/-- The function `emptyLoader = () => Promise.resolve(null)` (index.js 100). -/
def emptyLoader : Loader :=
  { id := 0, call := .ok (.fulfilled 0 JSVal.null) }

/-- The object `opts` after the defaults have been merged in (index.js
130-143).  `delay` and `timeout` are `some d` when the option is a number,
`webpack` is `some f` when it is a function, `modules` is `some l` when it is
an array.  `userRender` is the property `render` as the caller gave it. -/
structure Options where
  loader : Loader
  redux : Loader
  translations : Loader
  delay : Option Nat
  timeout : Option Nat
  webpack : Option (Unit → Except JSVal (List ModuleId))
  modules : Option (List String)
  userRender : JSVal

/-- An instance of `LoadableComponent`: `_mounted`, `this.state`,
`this.props.store`, and the timer handles `_delay` and `_timeout`. -/
structure Instance where
  mounted : Bool
  state : InstState
  store : JSVal
  delayTimer : Option Nat
  timeoutTimer : Option Nat
  deriving DecidableEq, Repr

/-- What a timer sets when it fires. -/
inductive TimerKind where
  | pastDelay
  | timedOut
  deriving DecidableEq, Repr

/-- A timer armed by `setTimeout`. -/
structure Timer where
  id : Nat
  fireAt : Nat
  inst : Nat
  kind : TimerKind
  deriving DecidableEq, Repr

/-- A callback registered with `res.promise.then`: the one of `init`
(index.js 207-213), or the pair of `_loadModule` of an instance (index.js
287-295). -/
inductive Reaction where
  | initThen
  | loadModuleThen (inst : Nat)
  deriving DecidableEq, Repr

/-- One call of `initRedux`, with its arguments and what it did. -/
structure Injection where
  store : JSVal
  loaded : Record
  result : Except JSVal (List StoreCall)
  deriving DecidableEq, Repr

/-- The variables closed over by one call of `createLoadableComponent`, with
the instances of its component and what they have done so far.  `res` is the
last element of `loads`; the earlier ones are the load states that `retry`
has replaced.  A reaction is kept with the number of the load state on whose
promise it was registered, until it has run. -/
structure DeclaredUnit where
  opts : Options
  env : InjectEnv
  now : Nat
  loads : List AggState
  theStore : JSVal
  reactions : List (Nat × Reaction)
  instances : List Instance
  timers : List Timer
  nextTimer : Nat
  injections : List Injection
  warnings : List JSVal
  reports : List String

/-- The unit right after its declaration: `res = null`, `theStore = null`. -/
def DeclaredUnit.declare (opts : Options) (env : InjectEnv) (now : Nat) : DeclaredUnit :=
  { opts := opts, env := env, now := now, loads := [], theStore := JSVal.null, reactions := [],
    instances := [], timers := [], nextTimer := 0, injections := [], warnings := [], reports := [] }

/-- The variable `res` as the running code reads it: the newest load state,
with the reactions of the entries settled so far applied. -/
def DeclaredUnit.res (u : DeclaredUnit) : Option AggState :=
  u.loads.getLast?.map (fun s => s.observe u.now)

/-- The number of the load state `res` points to. -/
def DeclaredUnit.resIndex (u : DeclaredUnit) : Nat :=
  u.loads.length - 1

/-- The identifiers of the loaders called so far, oldest first. -/
def DeclaredUnit.invoked (u : DeclaredUnit) : List Nat :=
  u.loads.flatMap (fun s => s.invoked)

/-- Apply a function to the instance number `i`. -/
def DeclaredUnit.modifyInstance (u : DeclaredUnit) (i : Nat) (f : Instance → Instance) :
    DeclaredUnit :=
  { u with instances := u.instances.modify f i }

/-- The call `this.setState(patch)` of instance `i`. -/
def DeclaredUnit.setState (u : DeclaredUnit) (i : Nat) (p : StatePatch) : DeclaredUnit :=
  u.modifyInstance i (fun inst => { inst with state := Loadable.setState inst.state p })

/-- Embedding of `_clearTimeouts` (index.js 303-306): the two timers whose
handles the instance holds are cancelled. -/
def DeclaredUnit.clearTimeouts (u : DeclaredUnit) (i : Nat) : DeclaredUnit :=
  match u.instances[i]? with
  | none => u
  | some inst =>
    { u with timers := u.timers.filter (fun t =>
        !(some t.id == inst.delayTimer || some t.id == inst.timeoutTimer)) }

/-- Embedding of `componentWillUnmount` (index.js 298-301). -/
def DeclaredUnit.componentWillUnmount (u : DeclaredUnit) (i : Nat) : DeclaredUnit :=
  (u.modifyInstance i (fun inst => { inst with mounted := false })).clearTimeouts i

/-- A loader called at the instant `now`: its promise settles the delay given
by `call` after the next instant, never within the synchronous code that called it. -/
def Loader.at (l : Loader) (now : Nat) : Loader :=
  { l with call := l.call.map (fun p =>
      match p with
      | .pending => .pending
      | .fulfilled d v => .fulfilled (now + 1 + d) v
      | .rejected d e => .rejected (now + 1 + d) e) }

/-- The argument of `loadMap` with its loaders called at `now`. -/
def LoaderArg.at (obj : LoaderArg) (now : Nat) : LoaderArg :=
  match obj with
  | .object es => .object (es.map (fun kl => (kl.1, kl.2.at now)))
  | .function f => .function (f.at now)

/-- The call `loadFn(obj)` made at the current instant, its result stored in
`res`.  `loadFn` is `loadMap` for both `Loadable` and `Loadable.Map`
(index.js 381-393). -/
def DeclaredUnit.assignRes (u : DeclaredUnit) (obj : LoaderArg) : DeclaredUnit :=
  { u with loads := u.loads ++ [loadMap (obj.at u.now)] }

/-- Embedding of `init()` (index.js 199-214): the load state is created on the
first call, and a reaction is registered on `res.promise` on every call. -/
def DeclaredUnit.init (u : DeclaredUnit) : DeclaredUnit :=
  let u1 :=
    if u.loads.isEmpty then
      u.assignRes (.object [("component", u.opts.loader), ("redux", u.opts.redux),
        ("translations", u.opts.translations)])
    else u
  { u1 with reactions := u1.reactions ++ [(u1.resIndex, Reaction.initThen)] }

/-- Arms a timer for instance `i` that fires `d` instants from now (at the
next instant at the earliest) and returns its handle. -/
def DeclaredUnit.setTimeout (u : DeclaredUnit) (i : Nat) (kind : TimerKind) (d : Nat) :
    DeclaredUnit × Nat :=
  ({ u with
      timers := u.timers ++ [{ id := u.nextTimer, fireAt := u.now + max 1 d, inst := i, kind := kind }]
      nextTimer := u.nextTimer + 1 }, u.nextTimer)

/-- Embedding of `_loadModule()` (index.js 246-296) up to the registration of
the reactions on `res.promise`.  The context provides `report`, as the
default context does. -/
def DeclaredUnit.loadModule (u : DeclaredUnit) (i : Nat) : DeclaredUnit :=
  let u1 : DeclaredUnit :=
    match u.opts.modules with
    | some ms => { u with reports := u.reports ++ ms }
    | none => u
  match u1.res with
  | none => u1
  | some res =>
    if !res.loading then u1
    else
      let u2 : DeclaredUnit :=
        match u1.opts.delay with
        | none => u1
        | some 0 => u1.setState i { pastDelay := some true }
        | some d =>
          let (v, h) := u1.setTimeout i TimerKind.pastDelay d
          v.modifyInstance i (fun inst => { inst with delayTimer := some h })
      let u3 : DeclaredUnit :=
        match u2.opts.timeout with
        | none => u2
        | some t =>
          let (v, h) := u2.setTimeout i TimerKind.timedOut t
          v.modifyInstance i (fun inst => { inst with timeoutTimer := some h })
      { u3 with reactions := u3.reactions ++ [(u3.resIndex, Reaction.loadModuleThen i)] }

/-- Embedding of the closure `update` of `_loadModule` (index.js 273-285). -/
def DeclaredUnit.update (u : DeclaredUnit) (i : Nat) : DeclaredUnit :=
  match u.instances[i]?, u.res with
  | some inst, some res =>
    if !inst.mounted then u
    else
      (u.setState i
        { error := some res.error
          loaded := some (Payload.object u.resIndex)
          loading := some res.loading }).clearTimeouts i
  | _, _ => u

/-- The call `initRedux(store, res.loaded)`, recorded; the second component is
the error it threw, if any. -/
def DeclaredUnit.callInitRedux (u : DeclaredUnit) (store : JSVal) : DeclaredUnit × Option JSVal :=
  match u.res with
  | none => (u, some typeError)
  | some res =>
    let r := initRedux u.env store res.loaded
    ({ u with injections := u.injections ++ [{ store := store, loaded := res.loaded, result := r }] },
      match r with
      | .error e => some e
      | .ok _ => none)

/-- Runs a reaction whose promise has settled with `outcome`.  The callback of
`init` injects when a store has been recorded (index.js 207-213).  The
callbacks of `_loadModule` inject and update on fulfilment, and warn and
update on rejection or when the injection has thrown (index.js 287-295). -/
def DeclaredUnit.runReaction (u : DeclaredUnit) (outcome : Settle (List JSVal)) :
    Reaction → DeclaredUnit
  | .initThen =>
    match outcome with
    | .fulfilled _ _ => if u.theStore.truthy then (u.callInitRedux u.theStore).1 else u
    | _ => u
  | .loadModuleThen i =>
    match outcome with
    | .pending => u
    | .fulfilled _ _ =>
      let store := (u.instances[i]?.map (fun inst => inst.store)).getD JSVal.undefined
      match u.callInitRedux store with
      | (u1, none) => u1.update i
      | (u1, some error) => ({ u1 with warnings := u1.warnings ++ [error] }).update i
    | .rejected _ error => ({ u with warnings := u.warnings ++ [error] }).update i

/-- The promise on which a reaction numbered `gen` waits. -/
def DeclaredUnit.promiseOf (u : DeclaredUnit) (gen : Nat) : Settle (List JSVal) :=
  (u.loads[gen]?.map (fun s => s.promise)).getD .pending

/-- Runs, in the order of registration, the reactions whose promise has
settled by now, and drops them from the list. -/
def DeclaredUnit.drain (u : DeclaredUnit) : DeclaredUnit :=
  let due := u.reactions.filter (fun gr => (u.promiseOf gr.1).settledBy u.now)
  let rest := u.reactions.filter (fun gr => !(u.promiseOf gr.1).settledBy u.now)
  due.foldl (fun v gr => v.runReaction (u.promiseOf gr.1) gr.2) { u with reactions := rest }

/-- A timer fires: `setState({ pastDelay: true })` or `setState({ timedOut:
true })` (index.js 261-270). -/
def DeclaredUnit.fire (u : DeclaredUnit) (t : Timer) : DeclaredUnit :=
  match t.kind with
  | .pastDelay => u.setState t.inst { pastDelay := some true }
  | .timedOut => u.setState t.inst { timedOut := some true }

/-- The event loop moves to the next instant: the timers due fire, then the
reactions of the promises that settle at that instant run. -/
def DeclaredUnit.tick (u : DeclaredUnit) : DeclaredUnit :=
  let u1 : DeclaredUnit := { u with now := u.now + 1 }
  let due := u1.timers.filter (fun t => t.fireAt ≤ u1.now)
  let u2 : DeclaredUnit := { u1 with timers := u1.timers.filter (fun t => !(t.fireAt ≤ u1.now)) }
  (due.foldl DeclaredUnit.fire u2).drain

/-- The event loop runs for `n` instants. -/
def DeclaredUnit.run (u : DeclaredUnit) : Nat → DeclaredUnit
  | 0 => u
  | n + 1 => (u.tick).run n

/-- Embedding of `renderWithStore(store, props)` followed by the constructor
of `LoadableComponent` (index.js 227-240, 332-338); the new instance is the
last one. -/
def DeclaredUnit.construct (u : DeclaredUnit) (store : JSVal) : DeclaredUnit :=
  let u1 : DeclaredUnit := { u with theStore := store }
  let u2 := u1.init
  match u2.res with
  | none => u2
  | some res =>
    let inst : Instance :=
      { mounted := true
        state := { error := res.error, pastDelay := false, timedOut := false,
                   loading := res.loading, loaded := Payload.object u2.resIndex }
        store := store
        delayTimer := none
        timeoutTimer := none }
    let u3 : DeclaredUnit := { u2 with instances := u2.instances ++ [inst] }
    u3.loadModule (u3.instances.length - 1)

/-- Embedding of `retry` (index.js 308-312). -/
def DeclaredUnit.retry (u : DeclaredUnit) (i : Nat) : DeclaredUnit :=
  let u1 := u.setState i retryPatch
  let u2 := u1.assignRes (.function u1.opts.loader)
  u2.loadModule i

/-! ## The registries and `flushInitializers` -/

/-- An initializer held by a registry.  `call now` is what one invocation at
the instant `now` does: it throws, or it returns a promise (a value that is
not a promise counts as a promise fulfilled at once).  `syncKids` are the
initializers that the invocation itself appends to the registry, `asyncKids`
the ones appended while its promise is awaited. -/
inductive Initializer where
  | mk (id : Nat) (call : Nat → Except JSVal (Settle Unit)) (syncKids : List Initializer)
      (asyncKids : List Initializer)

/-- The identifier of an initializer. -/
def Initializer.id : Initializer → Nat
  | .mk id _ _ _ => id

/-- The invocation of an initializer. -/
def Initializer.call : Initializer → Nat → Except JSVal (Settle Unit)
  | .mk _ call _ _ => call

/-- The initializers appended during the invocation. -/
def Initializer.syncKids : Initializer → List Initializer
  | .mk _ _ sk _ => sk

/-- The initializers appended while the promise is awaited. -/
def Initializer.asyncKids : Initializer → List Initializer
  | .mk _ _ _ ak => ak

mutual
/-- The number of initializers an initializer stands for: itself and all the
ones it causes to be registered. -/
def Initializer.size : Initializer → Nat
  | .mk _ _ sk ak => 1 + Initializer.sizeList sk + Initializer.sizeList ak
/-- The number of initializers a registry stands for. -/
def Initializer.sizeList : List Initializer → Nat
  | [] => 0
  | i :: is => i.size + Initializer.sizeList is
end

mutual
/-- The identifiers of an initializer and of all the ones it causes to be
registered. -/
def Initializer.ids : Initializer → List Nat
  | .mk id _ sk ak => id :: (Initializer.idsList sk ++ Initializer.idsList ak)
/-- The identifiers of all the initializers a registry stands for. -/
def Initializer.idsList : List Initializer → List Nat
  | [] => []
  | i :: is => i.ids ++ Initializer.idsList is
end

/-- What the `while` loop of `flushInitializers` leaves behind: a throw of an
initializer or the array `promises`, the identifiers of the initializers
invoked (in order), the registry, and the initializers that are appended to
it while the promises are awaited. -/
structure LoopRun where
  thrown : Option JSVal
  promises : List (Settle Unit)
  invoked : List Nat
  registry : List Initializer
  awaited : List Initializer

/-- The loop `while (initializers.length) { init = initializers.pop();
promises.push(init()) }` (index.js 420-423), run at the instant `now`.  The
registry is an array: `pop` takes its last element and `push` appends. -/
def flushLoop : Nat → Nat → LoopRun → Option LoopRun
  | 0, _, _ => none
  | fuel + 1, now, s =>
    match s.registry.reverse with
    | [] => some s
    | init :: below =>
      match init.call now with
      | .error e =>
        some { s with thrown := some e
                      invoked := s.invoked ++ [init.id]
                      registry := below.reverse ++ init.syncKids }
      | .ok p =>
        flushLoop fuel now
          { s with promises := s.promises ++ [p]
                   invoked := s.invoked ++ [init.id]
                   registry := below.reverse ++ init.syncKids
                   awaited := s.awaited ++ init.asyncKids }

/-- What a call of `flushInitializers` does: it throws or returns a promise;
`invoked` lists the initializers invoked by the time the promise settles, and
`registry` is the registry at that time. -/
structure FlushRun where
  outcome : Except JSVal (Settle Unit)
  invoked : List Nat
  registry : List Initializer

/-- A promise that adopts the promise returned by a `then` callback that ran
at the instant `t`. -/
def Settle.notBefore {α : Type} (p : Settle α) (t : Nat) : Settle α :=
  match p with
  | .pending => .pending
  | .fulfilled t2 v => .fulfilled (max t t2) v
  | .rejected t2 e => .rejected (max t t2) e

/-- Embedding of `flushInitializers(initializers)` (index.js 417-430), called
at the instant `now`.  `none` when the fuel does not suffice. -/
def flushInitializers : Nat → Nat → List Initializer → Option FlushRun
  | 0, _, _ => none
  | fuel + 1, now, initializers =>
    match flushLoop (fuel + 1) now
        { thrown := none, promises := [], invoked := [], registry := initializers, awaited := [] } with
    | none => none
    | some run =>
      match run.thrown with
      | some e => some { outcome := .error e, invoked := run.invoked, registry := run.registry }
      | none =>
        match promiseAll run.promises with
        | .pending =>
          some { outcome := .ok .pending, invoked := run.invoked, registry := run.registry ++ run.awaited }
        | .rejected t e =>
          some { outcome := .ok (.rejected (max now t) e), invoked := run.invoked,
                 registry := run.registry ++ run.awaited }
        | .fulfilled t _ =>
          let registry := run.registry ++ run.awaited
          if registry.isEmpty then
            some { outcome := .ok (.fulfilled (max now t) ()), invoked := run.invoked, registry := [] }
          else
            match flushInitializers fuel (max now t) registry with
            | none => none
            | some inner =>
              some { outcome :=
                       match inner.outcome with
                       | .error e => .ok (.rejected (max now t) e)
                       | .ok p => .ok (p.notBefore (max now t))
                     invoked := run.invoked ++ inner.invoked
                     registry := inner.registry }

/-- The executor pattern `new Promise((resolve, reject) => { body })`: a throw
of the body rejects the new promise. -/
def newPromise (now : Nat) (body : Except JSVal (Settle Unit)) : Settle Unit :=
  match body with
  | .error e => .rejected now e
  | .ok p => p

/-- Embedding of `Loadable.preloadAll` (index.js 432-436) over the registry
`ALL_INITIALIZERS`: `flushInitializers(...).then(resolve, reject)`. -/
def preloadAll (fuel now : Nat) (ALL_INITIALIZERS : List Initializer) : Option (Settle Unit) :=
  (flushInitializers fuel now ALL_INITIALIZERS).map (fun run =>
    newPromise now (run.outcome.map (fun p => p.then2 (fun v => .ok v) (fun e => .error e))))

/-- Embedding of `Loadable.preloadReady` (index.js 438-443) over the registry
`READY_INITIALIZERS`: `flushInitializers(...).then(resolve, resolve)`. -/
def preloadReady (fuel now : Nat) (READY_INITIALIZERS : List Initializer) : Option (Settle Unit) :=
  (flushInitializers fuel now READY_INITIALIZERS).map (fun run =>
    newPromise now (run.outcome.map (fun p => p.then2 (fun v => .ok v) (fun _ => .ok ()))))

/-! ## The initializers of a declared unit, and the declarations -/

/-- The promise returned by `init()` called on the unit at its current
instant (index.js 199-214): `res.promise.then(data => ...)`, whose callback
injects when a store has been recorded and so rejects when the injection
throws.  The store is the one recorded at the time of the call. -/
def DeclaredUnit.initPromise (u : DeclaredUnit) : Settle (List JSVal) :=
  match u.init.loads.getLast? with
  | none => .pending
  | some res =>
    match res.promise with
    | .pending => .pending
    | .rejected t e => .rejected (max u.now t) e
    | .fulfilled t data =>
      if u.theStore.truthy then
        match initRedux u.env u.theStore (res.observe (max u.now t)).loaded with
        | .error e => .rejected (max u.now t) e
        | .ok _ => .fulfilled (max u.now t) data
      else .fulfilled (max u.now t) data

/-- Forgets the value of a promise. -/
def Settle.void {α : Type} : Settle α → Settle Unit
  | .pending => .pending
  | .fulfilled t _ => .fulfilled t ()
  | .rejected t e => .rejected t e

/-- The entry `init` that the declaration pushes on `ALL_INITIALIZERS`
(index.js 216). -/
def DeclaredUnit.allInitializer (u : DeclaredUnit) (id : Nat) (syncKids asyncKids : List Initializer) :
    Initializer :=
  .mk id (fun now => .ok ({ u with now := now }).initPromise.void) syncKids asyncKids

/-- The entry that the declaration pushes on `READY_INITIALIZERS` when
`opts.webpack` is the function `webpack` (index.js 219-223):
`() => { if (isWebpackReady(opts.webpack)) { return init(); } }`. -/
def DeclaredUnit.readyInitializer (u : DeclaredUnit) (webpackModules : WebpackModules)
    (webpack : Unit → Except JSVal (List ModuleId)) (id : Nat)
    (syncKids asyncKids : List Initializer) : Initializer :=
  .mk id (fun now =>
    match (isWebpackReady webpackModules webpack).result with
    | .error e => .error e
    | .ok true => .ok ({ u with now := now }).initPromise.void
    | .ok false => .ok (.fulfilled now ())) syncKids asyncKids

/-- The module-level state: the global `__webpack_modules__`, the units
declared so far, and the two registries, which hold the initializers of the
units by the number of the unit. -/
structure Globals where
  now : Nat
  webpackModules : WebpackModules
  units : List DeclaredUnit
  ALL_INITIALIZERS : List Nat
  READY_INITIALIZERS : List Nat

/-- The identifiers of the loaders called so far by any unit. -/
def Globals.invoked (g : Globals) : List Nat :=
  g.units.flatMap DeclaredUnit.invoked

/-- Embedding of `createLoadableComponent(loadMap, options)` (index.js
110-379) as far as the module-level state goes: the unit is created with
`res = null`, `init` is pushed on `ALL_INITIALIZERS`, and the probing wrapper
is pushed on `READY_INITIALIZERS` when `opts.webpack` is a function.  The
result is the number of the new unit, which stands for its component. -/
def createLoadableComponent (g : Globals) (opts : Options) (env : InjectEnv) : Globals × Nat :=
  let n := g.units.length
  ({ g with
      units := g.units ++ [DeclaredUnit.declare opts env g.now]
      ALL_INITIALIZERS := g.ALL_INITIALIZERS ++ [n]
      READY_INITIALIZERS :=
        match opts.webpack with
        | some _ => g.READY_INITIALIZERS ++ [n]
        | none => g.READY_INITIALIZERS }, n)

/-- Embedding of `Loadable(opts)` (index.js 381-383). -/
def LoadableFn (g : Globals) (opts : Options) (env : InjectEnv) : Globals × Except JSVal Nat :=
  let (g1, n) := createLoadableComponent g opts env
  (g1, .ok n)

/-- The error thrown by `LoadableMap`. -/
def renderRequired : JSVal :=
  .str "LoadableMap requires a `render(loaded, props)` function"

/-- Embedding of `LoadableMap(opts)` (index.js 385-393): the state after the
call, and the component returned or the error thrown. -/
def LoadableMap (g : Globals) (opts : Options) (env : InjectEnv) : Globals × Except JSVal Nat :=
  if !opts.userRender.isFunction then
    (g, .error renderRequired)
  else
    let (g1, n) := createLoadableComponent g opts env
    (g1, .ok n)

/-- The registry `ALL_INITIALIZERS` as the closures it holds. -/
def Globals.allRegistry (g : Globals) : List Initializer :=
  g.ALL_INITIALIZERS.filterMap (fun n => g.units[n]?.map (fun u => u.allInitializer n [] []))

/-- The registry `READY_INITIALIZERS` as the closures it holds. -/
def Globals.readyRegistry (g : Globals) : List Initializer :=
  g.READY_INITIALIZERS.filterMap (fun n =>
    match g.units[n]? with
    | none => none
    | some u => u.opts.webpack.map (fun w => u.readyInitializer g.webpackModules w n [] []))

/-! ## Concrete inputs -/

/-- An environment in which the module `ref 5` exports reducers and
translations and the store `ref 1` can inject both. -/
def demoEnv : InjectEnv :=
  { heap := fun i =>
      if i = 5 then [("reducers", .ref 6), ("translations", .ref 7)]
      else if i = 1 then [("injectAsyncReducer", .fn 9), ("addTranslations", .fn 10)]
      else []
    reducerName := .str "unit"
    translationsScope := .undefined
    localizeVersion := 2
    localizeContext := .null }

/-- A loader that fulfils with the module `ref 5` three instants after the
instant that follows its call. -/
def okLoader : Loader :=
  { id := 1, call := .ok (.fulfilled 3 (.ref 5)) }

/-- A loader that rejects with `"E"` one instant after the instant that
follows its call. -/
def failLoader : Loader :=
  { id := 2, call := .ok (.rejected 1 (.str "E")) }

/-- Options with the defaults of the source (`delay: 200`, no timeout, the
empty auxiliary loaders), no probe and no `render`. -/
def demoOptions : Options :=
  { loader := okLoader, redux := emptyLoader, translations := emptyLoader, delay := some 200,
    timeout := none, webpack := none, modules := none, userRender := .undefined }

/-- The demo options with a plain object, not a function, as `render`. -/
def objectRenderOptions : Options :=
  { demoOptions with userRender := .ref 4 }

/-- The same options with a loader that fails and `delay: 0`. -/
def failingOptions : Options :=
  { demoOptions with loader := failLoader, delay := some 0 }

/-- The module-level state before any declaration, with a bundler table that
holds the module `"a"`. -/
def demoGlobals : Globals :=
  { now := 0, webpackModules := .object (some (ModuleTable.literal [("a", .fn 3)])), units := [],
    ALL_INITIALIZERS := [],
    READY_INITIALIZERS := [] }

/-- The mapping `{a: okLoader, b: failLoader}` of the specification: `a`
fulfils with `"X"` at the instant 3, `b` rejects with `"E"` at the instant 2. -/
def mixedMap : List (String × Loader) :=
  [("a", { id := 1, call := .ok (.fulfilled 3 (.str "X")) }),
   ("b", { id := 2, call := .ok (.rejected 2 (.str "E")) })]

/-- An instance state with a latched `pastDelay` and a failed load. -/
def failedState : InstState :=
  { error := .str "E", pastDelay := true, timedOut := false, loading := false, loaded := .object 0 }

/-- An instance in that state, mounted with the store `ref 1`. -/
def failedInstance : Instance :=
  { mounted := true, state := failedState, store := .ref 1, delayTimer := none, timeoutTimer := none }

/-- An instance state whose error is the empty string, as left by a loader
that rejects with `""`. -/
def emptyErrorState : InstState :=
  { error := .str "", pastDelay := false, timedOut := false, loading := false, loaded := .object 0 }

/-- A unit declared with the failing options, rendered once with the store
`ref 1`, after five instants: the load has failed. -/
def failedUnit : DeclaredUnit :=
  ((DeclaredUnit.declare failingOptions demoEnv 0).construct (.ref 1)).run 5

/-- A unit declared with the demo options, rendered once with the store
`ref 1`, whose instance is disposed before the load settles. -/
def disposedUnit : DeclaredUnit :=
  ((DeclaredUnit.declare demoOptions demoEnv 0).construct (.ref 1)).componentWillUnmount 0

/-- A probe closure that throws `"boom"`. -/
def throwingProbe : Unit → Except JSVal (List ModuleId) :=
  fun _ => .error (.str "boom")

/-- The module-level state after `Loadable(opts)` with the throwing probe. -/
def throwingProbeGlobals : Globals :=
  (LoadableFn demoGlobals { demoOptions with webpack := some throwingProbe } demoEnv).1

/-! ## Declarations as the registries see them -/

/-- A loader that returns a promise which fulfils. -/
def Loader.fulfils (l : Loader) : Prop :=
  ∃ d v, l.call = .ok (.fulfilled d v)

/-- A loader that returns a promise which rejects with `e`. -/
def Loader.rejectsWith (l : Loader) (e : JSVal) : Prop :=
  ∃ d, l.call = .ok (.rejected d e)

/-- Every loader of the unit fulfils. -/
def Options.loadersFulfil (o : Options) : Prop :=
  o.loader.fulfils ∧ o.redux.fulfils ∧ o.translations.fulfils

/-- One loader of the unit rejects with `e`, its other loaders fulfil. -/
def Options.oneLoaderRejects (o : Options) (e : JSVal) : Prop :=
  (o.loader.rejectsWith e ∧ o.redux.fulfils ∧ o.translations.fulfils) ∨
  (o.loader.fulfils ∧ o.redux.rejectsWith e ∧ o.translations.fulfils) ∨
  (o.loader.fulfils ∧ o.redux.fulfils ∧ o.translations.rejectsWith e)

/-- A unit as declared, not yet initialised: its options, what its injection
reads, the instant of the declaration, the identifier of its initializer, and
the initializers that get registered while its load is awaited (the units
that the loaded module declares). -/
structure Declaration where
  opts : Options
  env : InjectEnv
  declaredAt : Nat
  id : Nat
  asyncKids : List Initializer

/-- The entry of `ALL_INITIALIZERS` for a declaration. -/
def Declaration.initializer (d : Declaration) : Initializer :=
  (DeclaredUnit.declare d.opts d.env d.declaredAt).allInitializer d.id [] d.asyncKids

/-- The entry of `READY_INITIALIZERS` for a declaration whose `opts.webpack`
is the function `webpack`. -/
def Declaration.readyInitializer (d : Declaration) (webpackModules : WebpackModules)
    (webpack : Unit → Except JSVal (List ModuleId)) : Initializer :=
  (DeclaredUnit.declare d.opts d.env d.declaredAt).readyInitializer webpackModules webpack d.id []
    d.asyncKids

/-- The promise an initializer returns when called at `now`, for an
initializer that does not throw. -/
def Initializer.promiseAt (i : Initializer) (now : Nat) : Settle Unit :=
  match i.call now with
  | .ok p => p
  | .error _ => .pending

mutual
/-- An initializer that never throws and whose promise fulfils, at whatever
instant it is invoked, and that causes only such initializers to be
registered. -/
def Initializer.fulfilling : Initializer → Prop
  | .mk _ call sk ak =>
    (∀ now, ∃ t, call now = .ok (.fulfilled t ())) ∧
      Initializer.fulfillingList sk ∧ Initializer.fulfillingList ak
/-- A registry of initializers that are all fulfilling. -/
def Initializer.fulfillingList : List Initializer → Prop
  | [] => True
  | i :: is => i.fulfilling ∧ Initializer.fulfillingList is
end

/-- A declaration with the demo options, whose loaders all fulfil. -/
def okDeclaration : Declaration :=
  { opts := demoOptions, env := demoEnv, declaredAt := 0, id := 10, asyncKids := [] }

/-- A declaration whose loader rejects with `"E"`. -/
def failingDeclaration : Declaration :=
  { opts := failingOptions, env := demoEnv, declaredAt := 0, id := 11, asyncKids := [] }

/-- An initializer whose promise fulfils at the instant after its call. -/
def leafInitializer (id : Nat) : Initializer :=
  .mk id (fun now => .ok (.fulfilled (now + 1) ())) [] []

/-- An initializer whose promise rejects with `"E"`, and while it is awaited
the initializer `21` is appended to the registry. -/
def rejectingParent : Initializer :=
  .mk 20 (fun now => .ok (.rejected (now + 1) (.str "E"))) [] [leafInitializer 21]

/-- An initializer that fulfils; its invocation appends the initializer `31`
and, while it is awaited, the initializer `32` is appended. -/
def fulfillingParent : Initializer :=
  .mk 30 (fun now => .ok (.fulfilled (now + 1) ())) [leafInitializer 31] [leafInitializer 32]

/-- The load state that the first `init()` of a unit creates at the instant
`t0` (index.js 201-205). -/
def initialLoad (opts : Options) (t0 : Nat) : AggState :=
  loadMap ((LoaderArg.object [("component", opts.loader), ("redux", opts.redux),
    ("translations", opts.translations)]).at t0)

/-- A unit with one load state, one instance, no timer armed: the shape of a
unit whose only instance has been disposed during the first load. -/
def DeclaredUnit.frozen (opts : Options) (env : InjectEnv) (load : AggState) (store : JSVal)
    (inst : Instance) (nextTimer : Nat) (reports : List String) (now : Nat)
    (reactions : List (Nat × Reaction)) (injections : List Injection) (warnings : List JSVal) :
    DeclaredUnit :=
  { opts := opts, env := env, now := now, loads := [load], theStore := store,
    reactions := reactions, instances := [inst], timers := [], nextTimer := nextTimer,
    injections := injections, warnings := warnings, reports := reports }

/-! ## The readiness probe (C1) -/

/-- C1 as stated fails: the table is the empty object literal, so the
identifier `"toString"` is not present in it, yet the read
`__webpack_modules__["toString"]` finds the inherited method and the probe
returns true.  And when the global is `null`, whose `typeof` is `'object'`,
the probe does call `getModuleIds` and then throws instead of returning
false. -/
theorem isWebpackReady_inherited_member :
    Record.get (ModuleTable.literal []).own "toString" = none ∧
    isWebpackReady (.object (some (ModuleTable.literal []))) (fun _ => .ok [some "toString"]) =
      { result := .ok true, getModuleIdsCalls := 1 } ∧
    isWebpackReady (.object none) (fun _ => .ok [some "a"]) =
      { result := .error typeError, getModuleIdsCalls := 1 } := by
  decide

theorem moduleIdReady_table (table : ModuleTable) (id : ModuleId) :
    ∃ b : Bool, moduleIdReady (some table) id = .ok b ∧
      (b = true ↔ ∃ k v, id = some k ∧ table.read k = some v ∧ v ≠ JSVal.undefined) := by
  cases id with
  | none => exact ⟨false, rfl, by simp⟩
  | some k =>
    cases h : table.read k with
    | none => exact ⟨false, by simp [moduleIdReady, h], by simp [h]⟩
    | some v => exact ⟨v != JSVal.undefined, by simp [moduleIdReady, h], by simp [h]⟩

theorem everyModuleId_table (table : ModuleTable) (ids : List ModuleId) :
    ∃ b : Bool, everyModuleId (some table) ids = .ok b ∧
      (b = true ↔ ∀ id ∈ ids, ∃ k v, id = some k ∧ table.read k = some v ∧
        v ≠ JSVal.undefined) := by
  induction ids with
  | nil => exact ⟨true, rfl, by simp⟩
  | cons id ids ih =>
    obtain ⟨b, hb, hiff⟩ := moduleIdReady_table table id
    obtain ⟨c, hc, hciff⟩ := ih
    cases b with
    | false =>
      refine ⟨false, by simp [everyModuleId, hb], ?_⟩
      constructor
      · intro h; cases h
      · intro h
        exact hiff.mpr (h id (List.mem_cons_self _ _))
    | true =>
      refine ⟨c, by simp [everyModuleId, hb, hc], ?_⟩
      rw [hciff]
      constructor
      · intro h x hx
        rcases List.mem_cons.mp hx with rfl | hx
        · exact hiff.mp rfl
        · exact h x hx
      · intro h x hx
        exact h x (List.mem_cons_of_mem _ hx)

/-- C1, amended: when `typeof __webpack_modules__` is not `'object'` the probe
returns false and never calls `getModuleIds` (whatever that closure would
do, throwing included); when the global is an object, and `getModuleIds()`
returns the list `ids`, it calls it once and returns true exactly when every
identifier of the list is defined and the read of the table under it, which
finds own and inherited properties alike, gives a value other than
`undefined`. -/
theorem isWebpackReady_contract :
    (∀ getModuleIds : Unit → Except JSVal (List ModuleId),
      isWebpackReady .notObject getModuleIds = { result := .ok false, getModuleIdsCalls := 0 }) ∧
    (∀ (table : ModuleTable) (ids : List ModuleId),
      ∃ b : Bool,
        isWebpackReady (.object (some table)) (fun _ => .ok ids) =
          { result := .ok b, getModuleIdsCalls := 1 } ∧
        (b = true ↔ ∀ id ∈ ids, ∃ k v, id = some k ∧ table.read k = some v ∧
          v ≠ JSVal.undefined)) := by
  refine ⟨fun _ => rfl, fun table ids => ?_⟩
  obtain ⟨b, hb, hiff⟩ := everyModuleId_table table ids
  exact ⟨b, by simp [isWebpackReady, hb], hiff⟩

/-! ## Declaration (C4) -/

theorem JSVal.isFunction_iff (v : JSVal) : v.isFunction = true ↔ ∃ id, v = JSVal.fn id := by
  cases v <;> simp [JSVal.isFunction]

/-- C4: when `opts.render` is not a function (it is missing, a primitive, or
an object that is not callable), `Loadable.Map(opts)` throws its
configuration error at once, and the module-level state is the one before
the call: both registries are as they were and no loader has been called. -/
theorem LoadableMap_render_required (g : Globals) (opts : Options) (env : InjectEnv)
    (h : opts.userRender.isFunction = false) :
    (LoadableMap g opts env).2 = .error renderRequired ∧
    (LoadableMap g opts env).1.ALL_INITIALIZERS = g.ALL_INITIALIZERS ∧
    (LoadableMap g opts env).1.READY_INITIALIZERS = g.READY_INITIALIZERS ∧
    (LoadableMap g opts env).1.invoked = g.invoked ∧
    (LoadableMap g opts env).1.units.length = g.units.length := by
  simp [LoadableMap, h]

theorem LoadableMap_render_required_witness :
    objectRenderOptions.userRender = JSVal.ref 4 ∧
    (LoadableMap demoGlobals objectRenderOptions demoEnv).2 = .error renderRequired ∧
    (LoadableMap demoGlobals objectRenderOptions demoEnv).1.ALL_INITIALIZERS =
      demoGlobals.ALL_INITIALIZERS ∧
    (LoadableMap demoGlobals objectRenderOptions demoEnv).1.READY_INITIALIZERS =
      demoGlobals.READY_INITIALIZERS ∧
    (LoadableMap demoGlobals objectRenderOptions demoEnv).1.invoked = demoGlobals.invoked ∧
    (LoadableMap demoGlobals objectRenderOptions demoEnv).1.units.length =
      demoGlobals.units.length :=
  ⟨rfl, LoadableMap_render_required demoGlobals objectRenderOptions demoEnv (by decide)⟩

/-! ## `retry` (C5, C6) -/

theorem loadMap_function (f : Loader) :
    loadMap (.function f) =
      { loading := false, loaded := [], error := JSVal.null, promises := [], invoked := [] } := rfl

theorem observe_loading_false (s : AggState) (now : Nat) (h : s.loading = false) :
    (s.observe now).loading = false := by
  have key : ∀ (l : List (String × Settle JSVal)) (a : AggState),
      (l.foldl AggState.entrySettled a).loading = a.loading := by
    intro l
    induction l with
    | nil => intro a; rfl
    | cons e l ih =>
      intro a
      rw [List.foldl_cons, ih]
      unfold AggState.entrySettled
      split <;> rfl
  simp [AggState.observe, key, h]

theorem res_after_retry_assign (u : DeclaredUnit) (f : Loader) :
    ∃ res, (u.assignRes (.function f)).res = some res ∧ res.loading = false := by
  refine ⟨(loadMap ((LoaderArg.function f).at u.now)).observe u.now, ?_, ?_⟩
  · simp [DeclaredUnit.res, DeclaredUnit.assignRes]
  · exact observe_loading_false _ _ rfl

/-- C6: for every instance state, the state update of `retry()` sets
`error = null`, `loading = true` and `timedOut = false` and leaves
`pastDelay` (and `loaded`) as they were; and this is all that the whole call
of `retry()` does to the state of the instance. -/
theorem retry_state_update (u : DeclaredUnit) (i : Nat) (inst : Instance)
    (h : u.instances[i]? = some inst) :
    (setState inst.state retryPatch).error = JSVal.null ∧
    (setState inst.state retryPatch).loading = true ∧
    (setState inst.state retryPatch).timedOut = false ∧
    (setState inst.state retryPatch).pastDelay = inst.state.pastDelay ∧
    (setState inst.state retryPatch).loaded = inst.state.loaded ∧
    (u.retry i).instances[i]? = some { inst with state := setState inst.state retryPatch } := by
  refine ⟨rfl, rfl, rfl, rfl, rfl, ?_⟩
  obtain ⟨res, hres, hl⟩ := res_after_retry_assign (u.setState i retryPatch) (u.setState i retryPatch).opts.loader
  have hinst : (u.setState i retryPatch).instances[i]? =
      some { inst with state := setState inst.state retryPatch } := by
    simp [DeclaredUnit.setState, DeclaredUnit.modifyInstance, List.getElem?_modify, h]
  unfold DeclaredUnit.retry DeclaredUnit.loadModule
  cases hm : (u.setState i retryPatch).opts.modules with
  | none =>
    simp only [hm]
    have : ((u.setState i retryPatch).assignRes (.function (u.setState i retryPatch).opts.loader)).opts.modules = none := hm
    simp [this, hres, hl]
    exact hinst
  | some ms =>
    have : ((u.setState i retryPatch).assignRes (.function (u.setState i retryPatch).opts.loader)).opts.modules = some ms := hm
    simp only [this]
    have hres2 : DeclaredUnit.res { ((u.setState i retryPatch).assignRes (.function (u.setState i retryPatch).opts.loader)) with reports := ((u.setState i retryPatch).assignRes (.function (u.setState i retryPatch).opts.loader)).reports ++ ms } = some res := hres
    simp [hres2, hl]
    exact hinst

theorem retry_state_update_witness :
    failedUnit.instances[0]? = some failedInstance ∧
    (setState failedInstance.state retryPatch).error = JSVal.null ∧
    (setState failedInstance.state retryPatch).loading = true ∧
    (setState failedInstance.state retryPatch).timedOut = false ∧
    (setState failedInstance.state retryPatch).pastDelay = failedInstance.state.pastDelay ∧
    (setState failedInstance.state retryPatch).loaded = failedInstance.state.loaded ∧
    (failedUnit.retry 0).instances[0]? =
      some { failedInstance with state := setState failedInstance.state retryPatch } :=
  ⟨by decide, retry_state_update failedUnit 0 failedInstance (by decide)⟩

/-- C5, at the failing unit: before `retry()` the instance shows the error `"E"`
and the loaders `[2, 0, 0]` have been called; `retry()` calls no loader (the
log is unchanged), the new shared load state has no entry and is not loading,
no reaction is registered on it, and ten instants later the instance is
still in `loading = true`. -/
theorem retry_does_not_reload :
    (failedUnit.instances.map (fun inst => inst.state.error)) = [JSVal.str "E"] ∧
    failedUnit.invoked = [2, 0, 0] ∧
    (failedUnit.retry 0).invoked = [2, 0, 0] ∧
    (failedUnit.retry 0).loads.length = 2 ∧
    (failedUnit.retry 0).res =
      some { loading := false, loaded := [], error := JSVal.null, promises := [], invoked := [] } ∧
    (failedUnit.retry 0).reactions = [] ∧
    (((failedUnit.retry 0).run 10).instances.map (fun inst => inst.state)) =
      [{ error := JSVal.null, pastDelay := true, timedOut := false, loading := true,
         loaded := Payload.object 0 }] := by
  decide

/-! ## `render` (C7) -/

/-- C7 as stated fails: with the error `""` (set, not null) and a non-null
`loaded`, `render()` does not return the loading view but the value of
`opts.render(loaded, props)`. -/
theorem render_set_error_not_shown :
    emptyErrorState.error ≠ JSVal.null ∧
    emptyErrorState.loaded ≠ Payload.val JSVal.null ∧
    render (fun loaded props => (loaded, props)) 0 emptyErrorState [("store", .ref 1), ("x", .num 1)] =
      Rendered.fromRender (Payload.object 0, [("x", .num 1)]) := by
  decide

theorem mem_withoutStore (props : Props) (kv : String × JSVal) :
    kv ∈ withoutStore props ↔ kv ∈ props ∧ kv.1 ≠ "store" := by
  simp [withoutStore, List.mem_filter]

/-- C7, amended: `render()` returns the loading view, given exactly
`{isLoading, pastDelay, timedOut, error, retry}` from the state, when
`state.loading` is true or `state.error` is truthy; otherwise the value of
`opts.render(state.loaded, props)` with the `store` prop removed when
`state.loaded` is truthy; otherwise null.  A truthy error takes precedence
over `loaded`. -/
theorem render_selection {R : Type} (optsRender : Payload → Props → R) (self : Nat)
    (state : InstState) (props : Props) :
    ((state.loading = true ∨ state.error.truthy = true) →
      render optsRender self state props =
        .loadingElement { isLoading := state.loading, pastDelay := state.pastDelay,
                          timedOut := state.timedOut, error := state.error, retry := self }) ∧
    ((state.loading = false ∧ state.error.truthy = false ∧ state.loaded.truthy = true) →
      render optsRender self state props =
        .fromRender (optsRender state.loaded (withoutStore props))) ∧
    ((state.loading = false ∧ state.error.truthy = false ∧ state.loaded.truthy = false) →
      render optsRender self state props = .null) ∧
    (∀ kv, kv ∈ withoutStore props ↔ kv ∈ props ∧ kv.1 ≠ "store") := by
  refine ⟨?_, ?_, ?_, mem_withoutStore props⟩
  · intro h
    have : (state.loading || state.error.truthy) = true := by
      rcases h with h | h <;> simp [h]
    simp [render, this]
  · rintro ⟨h1, h2, h3⟩
    simp [render, h1, h2, h3]
  · rintro ⟨h1, h2, h3⟩
    simp [render, h1, h2, h3]

theorem render_selection_witness :
    render (fun loaded props => (loaded, props)) 7 failedState [("store", .ref 1)] =
      .loadingElement { isLoading := false, pastDelay := true, timedOut := false,
                        error := .str "E", retry := 7 } :=
  (render_selection (fun loaded props => (loaded, props)) 7 failedState [("store", .ref 1)]).1
    (Or.inr (by decide))

/-! ## `preloadReady` (C2) -/

/-- C2, at the failing registry: the ready-only registry holds the
initializer of one unit whose probe closure `opts.webpack` throws `"boom"`,
and the bundler table is available; `flushInitializers` throws out of its
loop, and the promise returned by `preloadReady()` is rejected with `"boom"`. -/
theorem preloadReady_rejects_on_throwing_probe :
    throwingProbeGlobals.READY_INITIALIZERS = [0] ∧
    (flushInitializers 2 0 throwingProbeGlobals.readyRegistry).map (fun run => run.outcome) =
      some (.error (.str "boom")) ∧
    preloadReady 2 0 throwingProbeGlobals.readyRegistry = some (.rejected 0 (.str "boom")) := by
  decide

/-! ## Disposal during a load (C10) -/

/-- C10 as stated fails: an instance is constructed with the store `ref 1`
and disposed while the load is pending; when the load has fulfilled the state
of the instance is as it was at disposal, but `initRedux` has been performed
twice against the store, not once. -/
theorem disposed_instance_injects_twice :
    disposedUnit.injections = [] ∧
    (disposedUnit.run 10).instances = disposedUnit.instances ∧
    ((disposedUnit.run 10).res.map (fun res => res.loading)) = some false ∧
    ((disposedUnit.run 10).injections.map (fun inj => inj.store)) = [.ref 1, .ref 1] ∧
    (disposedUnit.run 10).injections.length ≠ 1 := by
  decide

/-! ## Records and promises: basic facts -/

theorem Settle.then1_catch1_id {α : Type} (p : Settle α) :
    (p.then1 (fun v => .ok v)).catch1 (fun e => .error e) = p := by
  cases p <;> rfl

theorem Record.get_nil (k : String) : Record.get [] k = none := rfl

theorem Record.get_cons (kv : String × JSVal) (r : Record) (k : String) :
    Record.get (kv :: r) k = if kv.1 = k then some kv.2 else Record.get r k := by
  unfold Record.get
  by_cases h : kv.1 = k <;> simp [List.find?_cons, h]

theorem Record.set_cons (a : String) (b : JSVal) (r : Record) (k : String) (v : JSVal) :
    Record.set ((a, b) :: r) k v = if a = k then (k, v) :: r else (a, b) :: Record.set r k v := by
  by_cases h : a = k <;> simp [Record.set, h]

theorem Record.get_set (r : Record) (k : String) (v : JSVal) (k2 : String) :
    Record.get (Record.set r k v) k2 = if k = k2 then some v else Record.get r k2 := by
  induction r with
  | nil => simp [Record.set, Record.get_cons, Record.get_nil]
  | cons kv r ih =>
    obtain ⟨a, b⟩ := kv
    rw [Record.set_cons]
    by_cases h : a = k
    · subst h
      by_cases h2 : a = k2 <;> simp [Record.get_cons, h2]
    · by_cases h2 : a = k2
      · subst h2
        have : ¬ k = a := fun e => h e.symm
        simp [h, Record.get_cons, this]
      · simp [h, Record.get_cons, h2, ih]

theorem Record.keys_set (r : Record) (k : String) (v : JSVal) :
    (Record.set r k v).map Prod.fst =
      if k ∈ r.map Prod.fst then r.map Prod.fst else r.map Prod.fst ++ [k] := by
  induction r with
  | nil => simp [Record.set]
  | cons kv r ih =>
    obtain ⟨a, b⟩ := kv
    rw [Record.set_cons]
    by_cases h : a = k
    · subst h
      simp
    · have hne : ¬ k = a := fun e => h e.symm
      simp only [h, if_false, List.map_cons, ih, List.mem_cons, hne, false_or]
      by_cases hk : k ∈ List.map Prod.fst r <;> simp [hk]

theorem Record.nodup_set (r : Record) (k : String) (v : JSVal) (h : (r.map Prod.fst).Nodup) :
    ((Record.set r k v).map Prod.fst).Nodup := by
  rw [Record.keys_set]
  split
  · exact h
  · rename_i hk
    rw [List.nodup_append]
    refine ⟨h, by simp, ?_⟩
    intro a ha hb
    simp at hb
    subst hb
    exact hk ha

/-! ## `loadMap` (C8) -/

theorem load_ok (l : Loader) (p : Settle JSVal) (h : l.call = .ok p) :
    load l = .ok { loading := true, loaded := JSVal.null, error := JSVal.null, promise := p } := by
  simp [load, h, Settle.then1_catch1_id]

theorem loadMapLoop_ok (es : List (String × Loader)) :
    ∀ st : AggState, (∀ kl ∈ es, ∃ p, kl.2.call = .ok p) →
      loadMapLoop es st =
        { st with
          loading := st.loading || !es.isEmpty
          promises := st.promises ++ es.map (fun kl => (kl.1, kl.2.promise))
          invoked := st.invoked ++ es.map (fun kl => kl.2.id) } := by
  induction es with
  | nil => intro st _; simp [loadMapLoop]
  | cons kl es ih =>
    intro st h
    obtain ⟨key, loader⟩ := kl
    obtain ⟨p, hp⟩ := h (key, loader) (List.mem_cons_self _ _)
    have hp2 : loader.call = .ok p := hp
    have hpr : loader.promise = p := by simp [Loader.promise, hp2]
    unfold loadMapLoop
    rw [load_ok loader p hp2]
    simp only [Bool.not_true, Bool.false_eq_true, if_false]
    rw [ih _ (fun kl hkl => h kl (List.mem_cons_of_mem _ hkl))]
    simp [hpr, List.append_assoc]

theorem fold_entrySettled_loading (l : List (String × Settle JSVal)) :
    ∀ a : AggState, (l.foldl AggState.entrySettled a).loading = a.loading := by
  induction l with
  | nil => intro a; rfl
  | cons e l ih =>
    intro a
    rw [List.foldl_cons, ih]
    unfold AggState.entrySettled
    split <;> rfl

theorem fold_entrySettled_error (E : JSVal) (l : List (String × Settle JSVal)) :
    ∀ a : AggState, (∀ e ∈ l, ∀ t x, e.2 = Settle.rejected t x → x = E) →
      (a.error = E ∨ ∃ e ∈ l, ∃ t, e.2 = Settle.rejected t E) →
      (l.foldl AggState.entrySettled a).error = E := by
  induction l with
  | nil =>
    intro a _ h
    rcases h with h | ⟨e, he, _⟩
    · exact h
    · cases he
  | cons e l ih =>
    intro a hall h
    rw [List.foldl_cons]
    apply ih _ (fun e2 he2 => hall e2 (List.mem_cons_of_mem _ he2))
    cases hs : e.2 with
    | pending =>
      rcases h with h | ⟨e2, he2, t, ht⟩
      · left; simp [AggState.entrySettled, hs, h]
      · rcases List.mem_cons.mp he2 with rfl | hm
        · rw [hs] at ht; cases ht
        · exact Or.inr ⟨e2, hm, t, ht⟩
    | fulfilled t0 v =>
      rcases h with h | ⟨e2, he2, t, ht⟩
      · left; simp [AggState.entrySettled, hs, h]
      · rcases List.mem_cons.mp he2 with rfl | hm
        · rw [hs] at ht; cases ht
        · exact Or.inr ⟨e2, hm, t, ht⟩
    | rejected t0 x =>
      left
      have := hall e (List.mem_cons_self _ _) t0 x hs
      simp [AggState.entrySettled, hs, this]

theorem fold_entrySettled_nodup (l : List (String × Settle JSVal)) :
    ∀ a : AggState, (a.loaded.map Prod.fst).Nodup →
      ((l.foldl AggState.entrySettled a).loaded.map Prod.fst).Nodup := by
  induction l with
  | nil => intro a h; exact h
  | cons e l ih =>
    intro a h
    rw [List.foldl_cons]
    apply ih
    unfold AggState.entrySettled
    split
    · exact h
    · exact Record.nodup_set _ _ _ h
    · exact h

theorem fold_entrySettled_get (l : List (String × Settle JSVal)) :
    ∀ a : AggState, (l.map Prod.fst).Nodup → ∀ k v,
      (Record.get (l.foldl AggState.entrySettled a).loaded k = some v ↔
        (∃ t, (k, Settle.fulfilled t v) ∈ l) ∨
          ((∀ t w, (k, Settle.fulfilled t w) ∉ l) ∧ Record.get a.loaded k = some v)) := by
  induction l with
  | nil => intro a _ k v; simp
  | cons e l ih =>
    intro a hnd k v
    obtain ⟨key, p⟩ := e
    have hnd2 : (l.map Prod.fst).Nodup := (List.nodup_cons.mp hnd).2
    have hkey : key ∉ l.map Prod.fst := (List.nodup_cons.mp hnd).1
    have hnot : ∀ q, (key, q) ∉ l := fun q hq => hkey (List.mem_map_of_mem Prod.fst hq)
    rw [List.foldl_cons, ih _ hnd2]
    by_cases hk : key = k
    · subst hk
      cases p with
      | pending => simp [AggState.entrySettled, hnot]
      | rejected t0 x => simp [AggState.entrySettled, hnot]
      | fulfilled t0 w =>
        simp only [AggState.entrySettled, Record.get_set, if_true, List.mem_cons, hnot, or_false,
          Prod.mk.injEq, true_and, Settle.fulfilled.injEq, not_false_eq_true, implies_true,
          Option.some.injEq, exists_false, false_or]
        constructor
        · intro h
          exact Or.inl ⟨t0, rfl, h.symm⟩
        · intro h
          rcases h with ⟨_, _, h⟩ | ⟨h, _⟩
          · exact h.symm
          · exact absurd (And.intro rfl rfl) (h t0 w)
    · have hk2 : ∀ q, ¬ ((k, q) = (key, p)) := fun q e => hk (by cases e; rfl)
      cases p with
      | pending => simp [AggState.entrySettled, hk2, List.mem_cons]
      | rejected t0 x => simp [AggState.entrySettled, hk2, List.mem_cons]
      | fulfilled t0 w =>
        have hk3 : ∀ (t : Nat) (x : JSVal), ¬ (k = key ∧ t = t0 ∧ x = w) :=
          fun t x e => hk e.1.symm
        simp [AggState.entrySettled, Record.get_set, hk, List.mem_cons, hk3]

theorem nodup_fst_unique {β : Type} (l : List (String × β)) (h : (l.map Prod.fst).Nodup)
    (k : String) (a b : β) (ha : (k, a) ∈ l) (hb : (k, b) ∈ l) : a = b := by
  induction l with
  | nil => cases ha
  | cons x l ih =>
    have hx : x.1 ∉ l.map Prod.fst := (List.nodup_cons.mp h).1
    have hl : (l.map Prod.fst).Nodup := (List.nodup_cons.mp h).2
    rcases List.mem_cons.mp ha with e1 | m1
    · rcases List.mem_cons.mp hb with e2 | m2
      · rw [← e1] at e2
        exact (Prod.mk.inj e2).2.symm
      · exact absurd (List.mem_map_of_mem Prod.fst m2) (by rw [← e1] at hx; exact hx)
    · rcases List.mem_cons.mp hb with e2 | m2
      · exact absurd (List.mem_map_of_mem Prod.fst m1) (by rw [← e2] at hx; exact hx)
      · exact ih hl m1 m2

theorem firstRejection_mem {α : Type} (ps : List (Settle α)) (t : Nat) (e : JSVal)
    (h : firstRejection ps = some (t, e)) : Settle.rejected t e ∈ ps := by
  induction ps generalizing t e with
  | nil => simp [firstRejection] at h
  | cons p ps ih =>
    cases p with
    | pending => exact List.mem_cons_of_mem _ (ih t e (by simpa [firstRejection] using h))
    | fulfilled t0 v => exact List.mem_cons_of_mem _ (ih t e (by simpa [firstRejection] using h))
    | rejected t0 e0 =>
      unfold firstRejection at h
      cases hr : firstRejection ps with
      | none =>
        rw [hr] at h
        simp at h
        rw [h.1, h.2]
        exact List.mem_cons_self _ _
      | some r =>
        obtain ⟨t2, e2⟩ := r
        rw [hr] at h
        simp only at h
        split at h
        · simp at h
          exact List.mem_cons_of_mem _ (ih t e (by rw [hr, h.1, h.2]))
        · simp at h
          rw [h.1, h.2]
          exact List.mem_cons_self _ _

theorem firstRejection_isSome {α : Type} (ps : List (Settle α)) (t : Nat) (e : JSVal)
    (h : Settle.rejected t e ∈ ps) : ∃ r, firstRejection ps = some r := by
  induction ps with
  | nil => cases h
  | cons p ps ih =>
    cases p with
    | pending =>
      rcases List.mem_cons.mp h with e1 | m
      · cases e1
      · simpa [firstRejection] using ih m
    | fulfilled t0 v =>
      rcases List.mem_cons.mp h with e1 | m
      · cases e1
      · simpa [firstRejection] using ih m
    | rejected t0 e0 =>
      unfold firstRejection
      cases hr : firstRejection ps with
      | none => exact ⟨_, rfl⟩
      | some r =>
        obtain ⟨t2, e2⟩ := r
        simp only
        split
        · exact ⟨_, rfl⟩
        · exact ⟨_, rfl⟩

theorem mem_settledEntries (ps : List (String × Settle JSVal)) (now : Nat)
    (e : String × Settle JSVal) :
    e ∈ settledEntries ps now ↔ e ∈ ps ∧ e.2.settledBy now = true := by
  unfold settledEntries
  rw [(List.perm_insertionSort _ _).mem_iff, List.mem_filter]

theorem nodup_settledEntries (ps : List (String × Settle JSVal)) (now : Nat)
    (h : (ps.map Prod.fst).Nodup) : ((settledEntries ps now).map Prod.fst).Nodup := by
  unfold settledEntries
  rw [((List.perm_insertionSort _ _).map Prod.fst).nodup_iff]
  exact h.sublist ((List.filter_sublist _).map Prod.fst)

theorem loadMap_object_ok (entries : List (String × Loader))
    (h : ∀ kl ∈ entries, ∃ p, kl.2.call = .ok p) :
    loadMap (.object entries) =
      { loading := !entries.isEmpty
        loaded := []
        error := JSVal.null
        promises := entries.map (fun kl => (kl.1, kl.2.promise))
        invoked := entries.map (fun kl => kl.2.id) } := by
  unfold loadMap
  rw [show (LoaderArg.object entries).entries = entries from rfl, loadMapLoop_ok entries _ h]
  simp

/-- C8: `loadMap` over a mapping with distinct keys in which the loader under
`bad` rejects with `E` at the instant `tb` and every other loader fulfils.
At every instant `now` from `tb` on, the aggregate state has `loading =
false`, `error = E`, and `loaded` is a record whose keys are exactly the
entries that have fulfilled by `now`, each with its value, and that has no
key `bad`; so once every entry has settled `loaded` holds exactly the
fulfilled entries. The aggregate promise is rejected with `E`. -/
theorem loadMap_one_rejection (entries : List (String × Loader)) (bad : String) (E : JSVal)
    (tb now : Nat) (badLoader : Loader)
    (hkeys : (entries.map Prod.fst).Nodup)
    (hbad : (bad, badLoader) ∈ entries)
    (hrej : badLoader.call = .ok (.rejected tb E))
    (hok : ∀ kl ∈ entries, kl.1 ≠ bad → ∃ t v, kl.2.call = .ok (.fulfilled t v))
    (hnow : tb ≤ now) :
    ((loadMap (.object entries)).observe now).loading = false ∧
    ((loadMap (.object entries)).observe now).error = E ∧
    (((loadMap (.object entries)).observe now).loaded.map Prod.fst).Nodup ∧
    Record.get ((loadMap (.object entries)).observe now).loaded bad = none ∧
    (∀ k v, Record.get ((loadMap (.object entries)).observe now).loaded k = some v ↔
      ∃ l t, (k, l) ∈ entries ∧ l.call = .ok (.fulfilled t v) ∧ t ≤ now) ∧
    (loadMap (.object entries)).promise = .rejected tb E := by
  have hall : ∀ kl ∈ entries, ∃ p, kl.2.call = .ok p := by
    intro kl hkl
    by_cases hk : kl.1 = bad
    · have : kl.2 = badLoader :=
        nodup_fst_unique entries hkeys bad kl.2 badLoader (by rw [← hk]; exact hkl) hbad
      exact ⟨_, by rw [this]; exact hrej⟩
    · obtain ⟨t, v, h⟩ := hok kl hkl hk
      exact ⟨_, h⟩
  have hbadp : badLoader.promise = .rejected tb E := by simp [Loader.promise, hrej]
  -- every rejected promise of the array is the one of `bad`
  have hrejs : ∀ k t x, (k, Settle.rejected t x) ∈ entries.map (fun kl => (kl.1, kl.2.promise)) →
      k = bad ∧ t = tb ∧ x = E := by
    intro k t x hm
    obtain ⟨kl, hkl, he⟩ := List.mem_map.mp hm
    have he1 : kl.1 = k := (Prod.mk.inj he).1
    have he2 : kl.2.promise = Settle.rejected t x := (Prod.mk.inj he).2
    by_cases hk : kl.1 = bad
    · have : kl.2 = badLoader :=
        nodup_fst_unique entries hkeys bad kl.2 badLoader (by rw [← hk]; exact hkl) hbad
      rw [this, hbadp] at he2
      cases he2
      exact ⟨by rw [← he1, hk], rfl, rfl⟩
    · obtain ⟨t2, v, h⟩ := hok kl hkl hk
      simp [Loader.promise, h] at he2
  have hbadmem : (bad, Settle.rejected tb E) ∈ entries.map (fun kl => (kl.1, kl.2.promise)) :=
    List.mem_map.mpr ⟨(bad, badLoader), hbad, by simp [hbadp]⟩
  have hkeys2 : ((entries.map (fun kl => (kl.1, kl.2.promise))).map Prod.fst).Nodup := by
    simpa [List.map_map, Function.comp_def] using hkeys
  -- the aggregate promise
  have hprom : (loadMap (.object entries)).promise = .rejected tb E := by
    rw [loadMap_object_ok entries hall]
    unfold AggState.promise
    rw [Settle.then1_catch1_id]
    simp only
    have hmem : Settle.rejected tb E ∈
        (entries.map (fun kl => (kl.1, kl.2.promise))).map (fun kp => kp.2) :=
      List.mem_map.mpr ⟨_, hbadmem, rfl⟩
    obtain ⟨r, hr⟩ := firstRejection_isSome _ tb E hmem
    obtain ⟨t, x⟩ := r
    have hin := firstRejection_mem _ t x hr
    obtain ⟨kp, hkp, hkp2⟩ := List.mem_map.mp hin
    have := hrejs kp.1 t x (by rw [← hkp2]; exact hkp)
    unfold promiseAll
    rw [hr, this.2.1, this.2.2]
  have hobs : (loadMap (.object entries)).observe now =
      { (List.foldl AggState.entrySettled (loadMap (.object entries))
          (settledEntries (loadMap (.object entries)).promises now)) with
        loading := (List.foldl AggState.entrySettled (loadMap (.object entries))
          (settledEntries (loadMap (.object entries)).promises now)).loading &&
            !((loadMap (.object entries)).promise.settledBy now) } := rfl
  have hprs : (loadMap (.object entries)).promises =
      entries.map (fun kl => (kl.1, kl.2.promise)) := by
    rw [loadMap_object_ok entries hall]
  have hld : (loadMap (.object entries)).loaded = [] := by
    rw [loadMap_object_ok entries hall]
  have hget := fold_entrySettled_get (settledEntries (loadMap (.object entries)).promises now)
    (loadMap (.object entries)) (by rw [hprs]; exact nodup_settledEntries _ now hkeys2)
  rw [hobs]
  refine ⟨?_, ?_, ?_, ?_, ?_, hprom⟩
  · simp [hprom, Settle.settledBy, Settle.time, hnow]
  · apply fold_entrySettled_error
    · intro e he t x hx
      rw [hprs, mem_settledEntries] at he
      exact (hrejs e.1 t x (by rw [← hx]; exact he.1)).2.2
    · right
      refine ⟨(bad, Settle.rejected tb E), ?_, tb, rfl⟩
      rw [hprs, mem_settledEntries]
      exact ⟨hbadmem, by simp [Settle.settledBy, Settle.time, hnow]⟩
  · apply fold_entrySettled_nodup
    rw [hld]
    exact List.nodup_nil
  · cases hg : Record.get (List.foldl AggState.entrySettled (loadMap (.object entries))
        (settledEntries (loadMap (.object entries)).promises now)).loaded bad with
    | none => rfl
    | some v =>
      exfalso
      rcases (hget bad v).mp hg with ⟨t, ht⟩ | ⟨_, h2⟩
      · rw [hprs, mem_settledEntries] at ht
        have h3 := nodup_fst_unique _ hkeys2 bad _ _ ht.1 hbadmem
        cases h3
      · rw [hld] at h2
        cases h2
  · intro k v
    rw [hget k v, hld]
    simp only [Record.get_nil, and_false, or_false, reduceCtorEq]
    constructor
    · rintro ⟨t, ht⟩
      rw [hprs, mem_settledEntries] at ht
      obtain ⟨kl, hkl, he⟩ := List.mem_map.mp ht.1
      have he1 : kl.1 = k := (Prod.mk.inj he).1
      have he2 : kl.2.promise = Settle.fulfilled t v := (Prod.mk.inj he).2
      obtain ⟨p, hp⟩ := hall kl hkl
      have hpp : p = Settle.fulfilled t v := by simpa [Loader.promise, hp] using he2
      refine ⟨kl.2, t, by rw [← he1]; exact hkl, by rw [hp, hpp], ?_⟩
      simpa [Settle.settledBy, Settle.time] using ht.2
    · rintro ⟨l, t, hl, hc, ht⟩
      refine ⟨t, ?_⟩
      rw [hprs, mem_settledEntries]
      refine ⟨List.mem_map.mpr ⟨(k, l), hl, by simp [Loader.promise, hc]⟩, ?_⟩
      simp [Settle.settledBy, Settle.time, ht]

theorem loadMap_one_rejection_witness :
    ((loadMap (.object mixedMap)).observe 3).loaded = [("a", .str "X")] ∧
    ((loadMap (.object mixedMap)).observe 3).loading = false ∧
    ((loadMap (.object mixedMap)).observe 3).error = .str "E" ∧
    (loadMap (.object mixedMap)).promise = .rejected 2 (.str "E") :=
  have h := loadMap_one_rejection mixedMap "b" (.str "E") 2 3
    { id := 2, call := .ok (.rejected 2 (.str "E")) } (by decide) (by decide) rfl
    (by
      intro kl hkl hne
      simp only [mixedMap, List.mem_cons, List.mem_singleton, List.not_mem_nil, or_false] at hkl
      rcases hkl with rfl | rfl
      · exact ⟨3, .str "X", rfl⟩
      · exact absurd rfl hne)
    (by decide)
  ⟨by decide, h.1, h.2.1, h.2.2.2.2.2⟩

/-! ## `preloadAll` (C3) -/

theorem declared_init_fulfils (d : Declaration) (now : Nat) (h : d.opts.loadersFulfil) :
    ∃ t, d.initializer.call now = .ok (.fulfilled t ()) := by
  obtain ⟨⟨d1, v1, h1⟩, ⟨d2, v2, h2⟩, ⟨d3, v3, h3⟩⟩ := h
  simp [Declaration.initializer, DeclaredUnit.allInitializer, Initializer.call,
    DeclaredUnit.initPromise, DeclaredUnit.init, DeclaredUnit.declare, DeclaredUnit.assignRes,
    LoaderArg.at, Loader.at, loadMap, LoaderArg.entries, loadMapLoop, load, h1, h2, h3,
    Settle.then1, Settle.catch1, Settle.then2, AggState.promise, promiseAll, firstRejection,
    allFulfilled, JSVal.truthy, Settle.void, Except.map]

theorem declared_init_rejects (d : Declaration) (now : Nat) (e : JSVal)
    (h : d.opts.oneLoaderRejects e) :
    ∃ t, d.initializer.call now = .ok (.rejected t e) := by
  rcases h with ⟨⟨d1, h1⟩, ⟨d2, v2, h2⟩, ⟨d3, v3, h3⟩⟩ | ⟨⟨d1, v1, h1⟩, ⟨d2, h2⟩, ⟨d3, v3, h3⟩⟩ |
    ⟨⟨d1, v1, h1⟩, ⟨d2, v2, h2⟩, ⟨d3, h3⟩⟩ <;>
  simp [Declaration.initializer, DeclaredUnit.allInitializer, Initializer.call,
    DeclaredUnit.initPromise, DeclaredUnit.init, DeclaredUnit.declare, DeclaredUnit.assignRes,
    LoaderArg.at, Loader.at, loadMap, LoaderArg.entries, loadMapLoop, load, h1, h2, h3,
    Settle.then1, Settle.catch1, Settle.then2, AggState.promise, promiseAll, firstRejection,
    allFulfilled, JSVal.truthy, Settle.void, Except.map]

theorem declared_init_syncKids (d : Declaration) : d.initializer.syncKids = [] := rfl

theorem flushLoop_no_throw (now : Nat) (r : List Initializer) :
    ∀ (fuel : Nat) (s : LoopRun), s.registry = r.reverse → r.length < fuel →
      (∀ i ∈ r, i.syncKids = [] ∧ ∃ p, i.call now = .ok p) →
      flushLoop fuel now s =
        some { thrown := s.thrown
               promises := s.promises ++ r.map (fun i => i.promiseAt now)
               invoked := s.invoked ++ r.map (fun i => i.id)
               registry := []
               awaited := s.awaited ++ r.flatMap (fun i => i.asyncKids) } := by
  induction r with
  | nil =>
    intro fuel s hs hf _
    cases fuel with
    | zero => omega
    | succ fuel =>
      simp only [List.reverse_nil] at hs
      unfold flushLoop
      simp [hs]
      cases s
      simp_all
  | cons i r ih =>
    intro fuel s hs hf hall
    cases fuel with
    | zero => omega
    | succ fuel =>
      obtain ⟨hsk, p, hp⟩ := hall i (List.mem_cons_self _ _)
      have hrev : s.registry.reverse = i :: r := by rw [hs, List.reverse_reverse]
      unfold flushLoop
      simp only [hrev, hp]
      rw [ih fuel _ (by simp [hsk]) (by simp at hf; omega)
        (fun j hj => hall j (List.mem_cons_of_mem _ hj))]
      simp [Initializer.promiseAt, hp, List.append_assoc]

theorem firstRejection_single {α : Type} (ps : List (Settle α)) (t : Nat) (e : JSVal)
    (hmem : Settle.rejected t e ∈ ps)
    (hall : ∀ p ∈ ps, p = Settle.rejected t e ∨ ∃ t2 v, p = Settle.fulfilled t2 v) :
    firstRejection ps = some (t, e) := by
  obtain ⟨r, hr⟩ := firstRejection_isSome ps t e hmem
  obtain ⟨t2, e2⟩ := r
  rcases hall _ (firstRejection_mem ps t2 e2 hr) with h | ⟨_, _, h⟩
  · cases h
    exact hr
  · cases h

/-- C3: the all-registry holds the initializers of declared units; one unit
has a loader that rejects with `e` (its other loaders fulfil) and every loader
of every other unit fulfils.  Then `preloadAll()` returns a promise that is
rejected, and it is rejected with `e`. -/
theorem preloadAll_rejects_with_unit_error (before after : List Declaration) (b : Declaration)
    (e : JSVal) (now fuel : Nat)
    (hb : b.opts.oneLoaderRejects e)
    (hothers : ∀ d ∈ before ++ after, d.opts.loadersFulfil)
    (hfuel : before.length + after.length + 1 < fuel) :
    ∃ t, preloadAll fuel now ((before ++ b :: after).map Declaration.initializer) =
      some (.rejected t e) := by
  obtain ⟨tb, htb⟩ := declared_init_rejects b now e hb
  cases fuel with
  | zero => omega
  | succ fuel =>
    have hcalls : ∀ i ∈ ((before ++ b :: after).map Declaration.initializer).reverse,
        i.syncKids = [] ∧ ∃ p, i.call now = .ok p := by
      intro i hi
      obtain ⟨d, hd, rfl⟩ := List.mem_map.mp (List.mem_reverse.mp hi)
      refine ⟨declared_init_syncKids d, ?_⟩
      rcases List.mem_append.mp hd with h | h
      · obtain ⟨t, ht⟩ := declared_init_fulfils d now (hothers d (List.mem_append_left _ h))
        exact ⟨_, ht⟩
      · rcases List.mem_cons.mp h with rfl | h
        · exact ⟨_, htb⟩
        · obtain ⟨t, ht⟩ := declared_init_fulfils d now (hothers d (List.mem_append_right _ h))
          exact ⟨_, ht⟩
    have hloop := flushLoop_no_throw now ((before ++ b :: after).map Declaration.initializer).reverse
      (fuel + 1)
      { thrown := none, promises := [], invoked := [],
        registry := (before ++ b :: after).map Declaration.initializer, awaited := [] }
      (by simp) (by simp; omega) hcalls
    have hfirst : firstRejection
        (((before ++ b :: after).map Declaration.initializer).reverse.map
          (fun i => i.promiseAt now)) = some (tb, e) := by
      apply firstRejection_single
      · refine List.mem_map.mpr ⟨b.initializer, ?_, by simp [Initializer.promiseAt, htb]⟩
        simp
      · intro p hp
        obtain ⟨i, hi, rfl⟩ := List.mem_map.mp hp
        obtain ⟨d, hd, rfl⟩ := List.mem_map.mp (List.mem_reverse.mp hi)
        rcases List.mem_append.mp hd with h | h
        · obtain ⟨t, ht⟩ := declared_init_fulfils d now (hothers d (List.mem_append_left _ h))
          exact Or.inr ⟨t, (), by simp [Initializer.promiseAt, ht]⟩
        · rcases List.mem_cons.mp h with rfl | h
          · exact Or.inl (by simp [Initializer.promiseAt, htb])
          · obtain ⟨t, ht⟩ := declared_init_fulfils d now (hothers d (List.mem_append_right _ h))
            exact Or.inr ⟨t, (), by simp [Initializer.promiseAt, ht]⟩
    refine ⟨max now tb, ?_⟩
    unfold preloadAll flushInitializers
    rw [hloop]
    simp only [List.nil_append]
    unfold promiseAll
    rw [hfirst]
    simp [newPromise, Settle.then2, Except.map]

theorem preloadAll_rejects_with_unit_error_witness :
    failingDeclaration.opts.oneLoaderRejects (.str "E") ∧
    ∃ t, preloadAll 3 0 (([okDeclaration] ++ failingDeclaration :: []).map Declaration.initializer) =
      some (.rejected t (.str "E")) :=
  ⟨Or.inl ⟨⟨1, rfl⟩, ⟨0, JSVal.null, rfl⟩, ⟨0, JSVal.null, rfl⟩⟩,
   preloadAll_rejects_with_unit_error [okDeclaration] [] failingDeclaration (.str "E") 0 3
    (Or.inl ⟨⟨1, rfl⟩, ⟨0, JSVal.null, rfl⟩, ⟨0, JSVal.null, rfl⟩⟩)
    (by
      intro d hd
      simp only [List.append_nil, List.mem_singleton] at hd
      subst hd
      exact ⟨⟨3, .ref 5, rfl⟩, ⟨0, JSVal.null, rfl⟩, ⟨0, JSVal.null, rfl⟩⟩)
    (by decide)⟩

/-! ## `flushInitializers` (C9) -/

/-- C9 as stated fails: the registry holds one initializer whose promise
rejects; while it is awaited the initializer `21` is appended.  The flush
invokes only `20`, its promise rejects, and `21` is left in the registry,
never invoked. -/
theorem flush_leaves_appended_initializer :
    (flushInitializers 5 0 [rejectingParent]).map (fun run => run.invoked) = some [20] ∧
    (flushInitializers 5 0 [rejectingParent]).map (fun run => run.outcome) =
      some (.ok (.rejected 1 (.str "E"))) ∧
    (flushInitializers 5 0 [rejectingParent]).map (fun run => run.registry.map Initializer.id) =
      some [21] ∧
    Initializer.idsList [rejectingParent] = [20, 21] := by
  decide

theorem sizeList_append (a b : List Initializer) :
    Initializer.sizeList (a ++ b) = Initializer.sizeList a + Initializer.sizeList b := by
  induction a with
  | nil => simp [Initializer.sizeList]
  | cons x xs ih => simp [Initializer.sizeList, ih]; omega

theorem idsList_append (a b : List Initializer) :
    Initializer.idsList (a ++ b) = Initializer.idsList a ++ Initializer.idsList b := by
  induction a with
  | nil => simp [Initializer.idsList]
  | cons x xs ih => simp [Initializer.idsList, ih]

theorem fulfillingList_append (a b : List Initializer) :
    Initializer.fulfillingList (a ++ b) ↔
      Initializer.fulfillingList a ∧ Initializer.fulfillingList b := by
  induction a with
  | nil => simp [Initializer.fulfillingList]
  | cons x xs ih => simp [Initializer.fulfillingList, ih, and_assoc]

theorem flushLoop_fulfilling (now : Nat) : ∀ (fuel : Nat) (s : LoopRun),
    Initializer.sizeList s.registry < fuel → Initializer.fulfillingList s.registry →
    ∃ inv ps aw,
      flushLoop fuel now s =
        some { thrown := s.thrown, promises := s.promises ++ ps, invoked := s.invoked ++ inv,
               registry := [], awaited := s.awaited ++ aw } ∧
      (∀ p ∈ ps, ∃ t, p = Settle.fulfilled t ()) ∧
      Initializer.fulfillingList aw ∧
      (∀ a, (inv ++ Initializer.idsList aw).count a = (Initializer.idsList s.registry).count a) ∧
      Initializer.sizeList aw + inv.length = Initializer.sizeList s.registry ∧
      (∀ below top, s.registry = below ++ [top] → ∃ rest, inv = top.id :: rest) ∧
      (s.registry = [] → inv = []) := by
  intro fuel
  induction fuel with
  | zero => intro s h _; omega
  | succ fuel ih =>
    intro s hsize hgood
    cases hrev : s.registry.reverse with
    | nil =>
      have hreg : s.registry = [] := by simpa using hrev
      refine ⟨[], [], [], ?_, by simp, by simp [Initializer.fulfillingList], ?_, ?_, ?_, fun _ => rfl⟩
      · unfold flushLoop
        simp only [hrev]
        cases s
        simp_all
      · intro a; simp [hreg, Initializer.idsList]
      · simp [hreg, Initializer.sizeList]
      · intro below top h
        rw [hreg] at h
        simp at h
    | cons i below =>
      have hreg : s.registry = below.reverse ++ [i] := by
        have := congrArg List.reverse hrev
        simpa using this
      obtain ⟨id, call, sk, ak⟩ := i
      rw [hreg, fulfillingList_append] at hgood
      obtain ⟨hgb, hgi, _⟩ := hgood
      unfold Initializer.fulfilling at hgi
      obtain ⟨hcall, hgsk, hgak⟩ := hgi
      obtain ⟨t, ht⟩ := hcall now
      rw [hreg, sizeList_append] at hsize
      simp only [Initializer.sizeList, Initializer.size] at hsize
      obtain ⟨inv, ps, aw, hrun, hps, hgaw, hcount, hsz, _, _⟩ :=
        ih { s with promises := s.promises ++ [Settle.fulfilled t ()]
                    invoked := s.invoked ++ [id]
                    registry := below.reverse ++ sk
                    awaited := s.awaited ++ ak }
          (by simp only [sizeList_append]; omega)
          (by simp only [fulfillingList_append]; exact ⟨hgb, hgsk⟩)
      refine ⟨id :: inv, Settle.fulfilled t () :: ps, ak ++ aw, ?_, ?_, ?_, ?_, ?_, ?_, ?_⟩
      · unfold flushLoop
        simp only [hrev, Initializer.call, ht, Initializer.id, Initializer.syncKids,
          Initializer.asyncKids]
        rw [hrun]
        simp [List.append_assoc]
      · intro p hp
        rcases List.mem_cons.mp hp with rfl | hp
        · exact ⟨t, rfl⟩
        · exact hps p hp
      · rw [fulfillingList_append]
        exact ⟨hgak, hgaw⟩
      · intro a
        have h1 := hcount a
        dsimp only at h1
        rw [hreg]
        simp only [idsList_append, List.count_append, List.count_cons, Initializer.idsList,
          Initializer.ids, List.count_nil, List.append_nil, List.cons_append] at h1 ⊢
        omega
      · dsimp only at hsz
        rw [hreg]
        simp only [sizeList_append, Initializer.sizeList, Initializer.size, List.length_cons] at hsz ⊢
        omega
      · intro below2 top h
        rw [hreg] at h
        have := List.append_inj_right' h rfl
        simp at this
        exact ⟨inv, by rw [← this]; rfl⟩
      · intro h
        rw [hreg] at h
        simp at h

theorem promiseAll_fulfilled (ps : List (Settle Unit))
    (h : ∀ p ∈ ps, ∃ t, p = Settle.fulfilled t ()) :
    ∃ t vs, promiseAll ps = Settle.fulfilled t vs := by
  have h1 : firstRejection ps = none := by
    induction ps with
    | nil => rfl
    | cons p ps ih =>
      obtain ⟨t, rfl⟩ := h p (List.mem_cons_self _ _)
      simpa [firstRejection] using ih (fun q hq => h q (List.mem_cons_of_mem _ hq))
  have h2 : ∃ r, allFulfilled ps = some r := by
    induction ps with
    | nil => exact ⟨_, rfl⟩
    | cons p ps ih =>
      obtain ⟨t, rfl⟩ := h p (List.mem_cons_self _ _)
      obtain ⟨r, hr⟩ := ih (fun q hq => h q (List.mem_cons_of_mem _ hq))
          (by
            cases hf : firstRejection ps with
            | none => rfl
            | some x => simp [firstRejection, hf] at h1)
      exact ⟨(max t r.1, () :: r.2), by simp [allFulfilled, hr]⟩
  obtain ⟨r, hr⟩ := h2
  exact ⟨r.1, r.2, by simp [promiseAll, h1, hr]⟩

theorem flushInitializers_fulfilling : ∀ (fuel now : Nat) (registry : List Initializer),
    Initializer.fulfillingList registry → Initializer.sizeList registry < fuel →
    ∃ run t,
      flushInitializers fuel now registry = some run ∧
      run.outcome = .ok (.fulfilled t ()) ∧
      run.registry = [] ∧
      (∀ a, run.invoked.count a = (Initializer.idsList registry).count a) ∧
      (∀ below top, registry = below ++ [top] → ∃ rest, run.invoked = top.id :: rest) ∧
      (registry = [] → run.invoked = []) := by
  intro fuel
  induction fuel with
  | zero => intro _ _ _ h; omega
  | succ fuel ih =>
    intro now registry hgood hsize
    obtain ⟨inv, ps, aw, hrun, hps, hgaw, hcount, hsz, hlifo, hnil⟩ :=
      flushLoop_fulfilling now (fuel + 1)
        { thrown := none, promises := [], invoked := [], registry := registry, awaited := [] }
        hsize hgood
    obtain ⟨t, vs, hall⟩ := promiseAll_fulfilled ps hps
    dsimp only at hcount hsz hlifo hnil
    by_cases haw : aw = []
    · subst haw
      refine ⟨{ outcome := .ok (.fulfilled (max now t) ()), invoked := inv, registry := [] },
        max now t, ?_, rfl, rfl, ?_, hlifo, hnil⟩
      · unfold flushInitializers
        simp [hrun, hall]
      · intro a
        simpa [Initializer.idsList] using hcount a
    · have hinv : inv ≠ [] := by
        intro h
        have : registry ≠ [] := by
          intro hr
          subst hr
          simp [Initializer.sizeList, h] at hsz
          cases aw with
          | nil => exact haw rfl
          | cons x xs =>
            obtain ⟨_, _, _, _⟩ := x
            simp [Initializer.sizeList, Initializer.size] at hsz
        obtain ⟨top, below, hr⟩ : ∃ top below, registry = below ++ [top] := by
          rcases List.eq_nil_or_concat registry with h0 | ⟨l, b, h0⟩
          · exact absurd h0 this
          · exact ⟨b, l, by simpa using h0⟩
        obtain ⟨rest, hrest⟩ := hlifo below top hr
        rw [h] at hrest
        cases hrest
      have hlen : 0 < inv.length := List.length_pos.mpr hinv
      obtain ⟨inner, t2, hinner, hout, hregi, hcounti, _, _⟩ :=
        ih (max now t) aw hgaw (by omega)
      refine ⟨{ outcome := .ok (.fulfilled (max (max now t) t2) ()), invoked := inv ++ inner.invoked,
                registry := inner.registry }, max (max now t) t2, ?_, rfl, hregi, ?_, ?_, ?_⟩
      · unfold flushInitializers
        have hne : (aw.isEmpty) = false := by
          cases aw with
          | nil => exact absurd rfl haw
          | cons _ _ => rfl
        simp [hrun, hall, hne, hinner, hout, Settle.notBefore]
      · intro a
        have h1 := hcount a
        have h2 := hcounti a
        simp only [List.count_append] at h1 ⊢
        omega
      · intro below top hr
        obtain ⟨rest, hrest⟩ := hlifo below top hr
        exact ⟨rest ++ inner.invoked, by simp [hrest]⟩
      · intro hr
        have := hnil hr
        exact absurd this hinv

/-- C9, amended: when no initializer throws and every promise returned by an
initializer fulfils, `flushInitializers(registry)` (with fuel for the
finitely many initializers) returns a promise that fulfils; by then every
initializer that was in the registry at call time, and every one appended
while earlier ones were invoked or awaited, has been invoked exactly once,
the one pushed last being invoked first, and the registry is empty.  On an
empty registry nothing is invoked. -/
theorem flush_invokes_each_once (fuel now : Nat) (registry : List Initializer)
    (hgood : Initializer.fulfillingList registry)
    (hfuel : Initializer.sizeList registry < fuel) :
    ∃ run t,
      flushInitializers fuel now registry = some run ∧
      run.outcome = .ok (.fulfilled t ()) ∧
      run.registry = [] ∧
      run.invoked.Perm (Initializer.idsList registry) ∧
      (∀ below top, registry = below ++ [top] → ∃ rest, run.invoked = top.id :: rest) ∧
      (registry = [] → run.invoked = []) := by
  obtain ⟨run, t, h1, h2, h3, h4, h5, h6⟩ :=
    flushInitializers_fulfilling fuel now registry hgood hfuel
  exact ⟨run, t, h1, h2, h3, List.perm_iff_count.mpr h4, h5, h6⟩

theorem leafInitializer_fulfilling (id : Nat) : (leafInitializer id).fulfilling := by
  unfold leafInitializer Initializer.fulfilling
  exact ⟨fun now => ⟨now + 1, rfl⟩, trivial, trivial⟩

theorem flush_invokes_each_once_witness :
    Initializer.idsList [leafInitializer 1, fulfillingParent] = [1, 30, 31, 32] ∧
    (flushInitializers 5 0 [leafInitializer 1, fulfillingParent]).map (fun run => run.invoked) =
      some [30, 31, 1, 32] ∧
    ∃ run t,
      flushInitializers 5 0 [leafInitializer 1, fulfillingParent] = some run ∧
      run.outcome = .ok (.fulfilled t ()) ∧
      run.registry = [] ∧
      run.invoked.Perm (Initializer.idsList [leafInitializer 1, fulfillingParent]) ∧
      (∀ below top, [leafInitializer 1, fulfillingParent] = below ++ [top] →
        ∃ rest, run.invoked = top.id :: rest) ∧
      ([leafInitializer 1, fulfillingParent] = [] → run.invoked = []) :=
  ⟨by decide, by decide,
   flush_invokes_each_once 5 0 [leafInitializer 1, fulfillingParent]
    ⟨leafInitializer_fulfilling 1,
     ⟨fun now => ⟨now + 1, rfl⟩, ⟨leafInitializer_fulfilling 31, trivial⟩,
      ⟨leafInitializer_fulfilling 32, trivial⟩⟩, trivial⟩
    (by decide)⟩

/-! ## Disposal during a load: the general statement (C10) -/

theorem observe_loading (s : AggState) (now : Nat) :
    (s.observe now).loading = (s.loading && !(s.promise.settledBy now)) := by
  simp [AggState.observe, fold_entrySettled_loading]

theorem initial_load_fulfils (opts : Options) (t0 : Nat) (h : opts.loadersFulfil) :
    ∃ T data, t0 < T ∧ (initialLoad opts t0).promise = .fulfilled T data ∧
      (initialLoad opts t0).loading = true := by
  obtain ⟨⟨d1, v1, h1⟩, ⟨d2, v2, h2⟩, ⟨d3, v3, h3⟩⟩ := h
  refine ⟨max (t0 + 1 + d1) (max (t0 + 1 + d2) (max (t0 + 1 + d3) 0)), [v1, v2, v3], ?_, ?_, ?_⟩
  · omega
  · simp [initialLoad, LoaderArg.at, Loader.at, loadMap, LoaderArg.entries, loadMapLoop, load, h1, h2, h3,
      Settle.then1, Settle.catch1, Settle.then2, AggState.promise, promiseAll, firstRejection,
      allFulfilled, Except.map]
  · simp [initialLoad, LoaderArg.at, Loader.at, loadMap, LoaderArg.entries, loadMapLoop, load, h1, h2, h3,
      Settle.then1, Settle.catch1, Settle.then2, Except.map]

theorem disposed_shape (opts : Options) (env : InjectEnv) (t0 : Nat) (store : JSVal)
    (T : Nat) (data : List JSVal) (hT : t0 < T)
    (hp : (initialLoad opts t0).promise = .fulfilled T data)
    (hl : (initialLoad opts t0).loading = true) :
    ∃ inst ws rs,
      ((DeclaredUnit.declare opts env t0).construct store).componentWillUnmount 0 =
        DeclaredUnit.frozen opts env (initialLoad opts t0) store inst ws rs t0
          [(0, Reaction.initThen), (0, Reaction.loadModuleThen 0)] [] [] ∧
      inst.mounted = false ∧ inst.store = store := by
  have hobs : ((initialLoad opts t0).observe t0).loading = true := by
    rw [observe_loading, hl, hp]
    simp [Settle.settledBy, Settle.time, hT]
  rcases hm : opts.modules with _ | ms <;> rcases hd : opts.delay with _ | (_ | d) <;>
    rcases ht : opts.timeout with _ | tt <;>
  simp [DeclaredUnit.construct, DeclaredUnit.init, DeclaredUnit.declare, DeclaredUnit.assignRes,
    DeclaredUnit.res, DeclaredUnit.resIndex, DeclaredUnit.loadModule, hm, hd, ht,
    show loadMap ((LoaderArg.object [("component", opts.loader), ("redux", opts.redux),
        ("translations", opts.translations)]).at t0) = initialLoad opts t0 from rfl, hobs,
    DeclaredUnit.setState, DeclaredUnit.modifyInstance, DeclaredUnit.setTimeout,
    DeclaredUnit.componentWillUnmount, DeclaredUnit.clearTimeouts, Loadable.setState,
    DeclaredUnit.frozen]

theorem frozen_tick_waiting (opts : Options) (env : InjectEnv) (load : AggState) (store : JSVal)
    (inst : Instance) (ws : Nat) (rs : List String) (now : Nat) (R : List (Nat × Reaction))
    (J : List Injection) (W : List JSVal) (T : Nat) (data : List JSVal)
    (hp : load.promise = .fulfilled T data) (hT : now + 1 < T) :
    (DeclaredUnit.frozen opts env load store inst ws rs now R J W).tick =
      DeclaredUnit.frozen opts env load store inst ws rs (now + 1) R J W := by
  have hnot : ∀ g : Nat, ((Option.map (fun s : AggState => s.promise)
      ([load] : List AggState)[g]?).getD Settle.pending).settledBy (now + 1) = false := by
    intro g
    cases g with
    | zero => simp [hp, Settle.settledBy, Settle.time, hT]
    | succ g => simp [Settle.settledBy, Settle.time]
  unfold DeclaredUnit.tick DeclaredUnit.drain
  simp [DeclaredUnit.frozen, DeclaredUnit.promiseOf, hnot]

theorem frozen_tick_done (opts : Options) (env : InjectEnv) (load : AggState) (store : JSVal)
    (inst : Instance) (ws : Nat) (rs : List String) (now : Nat)
    (J : List Injection) (W : List JSVal) :
    (DeclaredUnit.frozen opts env load store inst ws rs now [] J W).tick =
      DeclaredUnit.frozen opts env load store inst ws rs (now + 1) [] J W := by
  unfold DeclaredUnit.tick DeclaredUnit.drain
  simp [DeclaredUnit.frozen]

theorem frozen_run_initThen (opts : Options) (env : InjectEnv) (load : AggState) (store : JSVal)
    (inst : Instance) (ws : Nat) (rs : List String) (now : Nat) (R : List (Nat × Reaction))
    (J : List Injection) (W : List JSVal) (T : Nat) (data : List JSVal) :
    (DeclaredUnit.frozen opts env load store inst ws rs now R J W).runReaction
        (.fulfilled T data) .initThen =
      DeclaredUnit.frozen opts env load store inst ws rs now R
        (J ++ if store.truthy then
          [{ store := store, loaded := (load.observe now).loaded,
             result := initRedux env store (load.observe now).loaded }] else []) W := by
  by_cases hst : store.truthy = true <;>
  simp [DeclaredUnit.frozen, DeclaredUnit.runReaction, hst, DeclaredUnit.callInitRedux,
    DeclaredUnit.res]

theorem frozen_run_loadModuleThen (opts : Options) (env : InjectEnv) (load : AggState)
    (store : JSVal) (inst : Instance) (ws : Nat) (rs : List String) (now : Nat)
    (R : List (Nat × Reaction)) (J : List Injection) (W : List JSVal) (T : Nat)
    (data : List JSVal) (hm : inst.mounted = false) :
    ∃ W2, (DeclaredUnit.frozen opts env load store inst ws rs now R J W).runReaction
        (.fulfilled T data) (.loadModuleThen 0) =
      DeclaredUnit.frozen opts env load store inst ws rs now R
        (J ++ [{ store := inst.store, loaded := (load.observe now).loaded,
                 result := initRedux env inst.store (load.observe now).loaded }]) W2 := by
  cases hr : initRedux env inst.store (load.observe now).loaded with
  | error e =>
    exact ⟨W ++ [e], by
      simp [DeclaredUnit.frozen, DeclaredUnit.runReaction, DeclaredUnit.callInitRedux,
        DeclaredUnit.res, DeclaredUnit.update, hm, hr]⟩
  | ok c =>
    exact ⟨W, by
      simp [DeclaredUnit.frozen, DeclaredUnit.runReaction, DeclaredUnit.callInitRedux,
        DeclaredUnit.res, DeclaredUnit.update, hm, hr]⟩

theorem frozen_tick_settle (opts : Options) (env : InjectEnv) (load : AggState) (store : JSVal)
    (inst : Instance) (ws : Nat) (rs : List String) (now : Nat)
    (J : List Injection) (W : List JSVal) (T : Nat) (data : List JSVal)
    (hp : load.promise = .fulfilled T data) (hT : now + 1 = T)
    (hm : inst.mounted = false) (hs : inst.store = store) :
    ∃ J2 W2,
      (DeclaredUnit.frozen opts env load store inst ws rs now
          [(0, Reaction.initThen), (0, Reaction.loadModuleThen 0)] J W).tick =
        DeclaredUnit.frozen opts env load store inst ws rs (now + 1) [] (J ++ J2) W2 ∧
      J2.map (fun inj => inj.store) = if store.truthy then [store, store] else [store] := by
  have hset : load.promise.settledBy (now + 1) = true := by
    simp [hp, Settle.settledBy, Settle.time, hT]
  have htick : (DeclaredUnit.frozen opts env load store inst ws rs now
      [(0, Reaction.initThen), (0, Reaction.loadModuleThen 0)] J W).tick =
      ((DeclaredUnit.frozen opts env load store inst ws rs (now + 1) [] J W).runReaction
        (.fulfilled T data) .initThen).runReaction (.fulfilled T data) (.loadModuleThen 0) := by
    have hset2 : (Settle.fulfilled T data : Settle (List JSVal)).settledBy (now + 1) = true := by
      rw [← hp]; exact hset
    unfold DeclaredUnit.tick DeclaredUnit.drain
    simp [DeclaredUnit.frozen, DeclaredUnit.promiseOf, hp, List.filter, hset2]
  rw [htick, frozen_run_initThen]
  obtain ⟨W2, hW2⟩ := frozen_run_loadModuleThen opts env load store inst ws rs (now + 1) []
    (J ++ if store.truthy then
          [{ store := store, loaded := (load.observe (now + 1)).loaded,
             result := initRedux env store (load.observe (now + 1)).loaded }] else []) W T data hm
  rw [hW2]
  refine ⟨_, W2, by rw [List.append_assoc], ?_⟩
  by_cases hst : store.truthy = true <;> simp [hst, hs]

theorem run_add (u : DeclaredUnit) (a b : Nat) : (u.run a).run b = u.run (a + b) := by
  induction a generalizing u with
  | zero => simp [DeclaredUnit.run]
  | succ a ih =>
    rw [show a + 1 + b = (a + b) + 1 by omega]
    simp only [DeclaredUnit.run]
    exact ih _

theorem frozen_run_waiting (opts : Options) (env : InjectEnv) (load : AggState) (store : JSVal)
    (inst : Instance) (ws : Nat) (rs : List String) (R : List (Nat × Reaction))
    (J : List Injection) (W : List JSVal) (T : Nat) (data : List JSVal)
    (hp : load.promise = .fulfilled T data) :
    ∀ (n now : Nat), now + n < T →
      (DeclaredUnit.frozen opts env load store inst ws rs now R J W).run n =
        DeclaredUnit.frozen opts env load store inst ws rs (now + n) R J W := by
  intro n
  induction n with
  | zero => intro now _; rfl
  | succ n ih =>
    intro now h
    simp only [DeclaredUnit.run]
    rw [frozen_tick_waiting opts env load store inst ws rs now R J W T data hp (by omega),
      ih (now + 1) (by omega)]
    rw [show now + 1 + n = now + (n + 1) by omega]

theorem frozen_run_done (opts : Options) (env : InjectEnv) (load : AggState) (store : JSVal)
    (inst : Instance) (ws : Nat) (rs : List String) (J : List Injection) (W : List JSVal) :
    ∀ (n now : Nat),
      (DeclaredUnit.frozen opts env load store inst ws rs now [] J W).run n =
        DeclaredUnit.frozen opts env load store inst ws rs (now + n) [] J W := by
  intro n
  induction n with
  | zero => intro now; rfl
  | succ n ih =>
    intro now
    simp only [DeclaredUnit.run]
    rw [frozen_tick_done, ih (now + 1)]
    rw [show now + 1 + n = now + (n + 1) by omega]

theorem frozen_run_settled (opts : Options) (env : InjectEnv) (load : AggState) (store : JSVal)
    (inst : Instance) (ws : Nat) (rs : List String) (T : Nat) (data : List JSVal)
    (hp : load.promise = .fulfilled T data) (hm : inst.mounted = false) (hs : inst.store = store)
    (t0 n : Nat) (h0 : t0 < T) (hn : T ≤ t0 + n) :
    ∃ J2 W2,
      (DeclaredUnit.frozen opts env load store inst ws rs t0
          [(0, Reaction.initThen), (0, Reaction.loadModuleThen 0)] [] []).run n =
        DeclaredUnit.frozen opts env load store inst ws rs (t0 + n) [] J2 W2 ∧
      J2.map (fun inj => inj.store) = if store.truthy then [store, store] else [store] := by
  obtain ⟨J2, W2, htick, hJ⟩ := frozen_tick_settle opts env load store inst ws rs (T - 1) [] []
    T data hp (by omega) hm hs
  refine ⟨J2, W2, ?_, hJ⟩
  have hsplit : n = (T - 1 - t0) + (1 + (t0 + n - T)) := by omega
  rw [hsplit, ← run_add,
    frozen_run_waiting opts env load store inst ws rs _ [] [] T data hp (T - 1 - t0) t0 (by omega),
    ← run_add]
  simp only [DeclaredUnit.run]
  rw [show t0 + (T - 1 - t0) = T - 1 by omega, htick, List.nil_append, frozen_run_done]
  congr 1
  omega

/-- C10, amended: an instance is constructed with `store` while every loader
of the unit is going to fulfil, and is disposed at once, the load pending.
The load fulfils at an instant `T`; at no instant does the instance differ
from what it was at disposal; before `T` nothing has been injected; from `T`
on `initRedux` has been performed once by the callback of the disposed
instance, and once more by the callback that `init()` registered when a
store has been recorded: twice against a truthy store. -/
theorem disposed_instance_settlement (opts : Options) (env : InjectEnv) (t0 : Nat)
    (store : JSVal) (h : opts.loadersFulfil) :
    ∃ T, t0 < T ∧ (initialLoad opts t0).promise.time = some T ∧
      (∀ n, ((((DeclaredUnit.declare opts env t0).construct store).componentWillUnmount 0).run
          n).instances =
        (((DeclaredUnit.declare opts env t0).construct store).componentWillUnmount 0).instances) ∧
      (∀ n, t0 + n < T →
        ((((DeclaredUnit.declare opts env t0).construct store).componentWillUnmount 0).run
          n).injections = []) ∧
      (∀ n, T ≤ t0 + n →
        ((((DeclaredUnit.declare opts env t0).construct store).componentWillUnmount 0).run
          n).injections.map (fun inj => inj.store) =
            if store.truthy then [store, store] else [store]) := by
  obtain ⟨T, data, hT, hp, hl⟩ := initial_load_fulfils opts t0 h
  obtain ⟨inst, ws, rs, hshape, hm, hs⟩ := disposed_shape opts env t0 store T data hT hp hl
  refine ⟨T, hT, by simp [hp, Settle.time], ?_, ?_, ?_⟩
  · intro n
    rw [hshape]
    by_cases hn : t0 + n < T
    · rw [frozen_run_waiting opts env _ store inst ws rs _ [] [] T data hp n t0 hn]
      rfl
    · obtain ⟨J2, W2, hrun, _⟩ := frozen_run_settled opts env _ store inst ws rs T data hp hm hs
        t0 n hT (by omega)
      rw [hrun]
      rfl
  · intro n hn
    rw [hshape, frozen_run_waiting opts env _ store inst ws rs _ [] [] T data hp n t0 hn]
    rfl
  · intro n hn
    rw [hshape]
    obtain ⟨J2, W2, hrun, hJ⟩ := frozen_run_settled opts env _ store inst ws rs T data hp hm hs
      t0 n hT hn
    rw [hrun]
    exact hJ

theorem disposed_instance_settlement_witness :
    demoOptions.loadersFulfil ∧
    ∃ T, 0 < T ∧ (initialLoad demoOptions 0).promise.time = some T ∧
      (∀ n, ((((DeclaredUnit.declare demoOptions demoEnv 0).construct (.ref 1)).componentWillUnmount
          0).run n).instances =
        (((DeclaredUnit.declare demoOptions demoEnv 0).construct (.ref 1)).componentWillUnmount
          0).instances) ∧
      (∀ n, 0 + n < T →
        ((((DeclaredUnit.declare demoOptions demoEnv 0).construct (.ref 1)).componentWillUnmount
          0).run n).injections = []) ∧
      (∀ n, T ≤ 0 + n →
        ((((DeclaredUnit.declare demoOptions demoEnv 0).construct (.ref 1)).componentWillUnmount
          0).run n).injections.map (fun inj => inj.store) =
            if (JSVal.ref 1).truthy then [JSVal.ref 1, JSVal.ref 1] else [JSVal.ref 1]) :=
  ⟨⟨⟨3, .ref 5, rfl⟩, ⟨0, JSVal.null, rfl⟩, ⟨0, JSVal.null, rfl⟩⟩,
   disposed_instance_settlement demoOptions demoEnv 0 (.ref 1)
    ⟨⟨3, .ref 5, rfl⟩, ⟨0, JSVal.null, rfl⟩, ⟨0, JSVal.null, rfl⟩⟩⟩

end Loadable
